import Mathlib

/-!
Verification of the report-to-cycle reconstruction engine
(`unified_pdf_to_csv_test.py`): a shallow embedding of the header
normalizer, the section/entry parser, the metadata extractor, the patient
grouper and the cycle reconstructor, together with proofs and refutations
of the specified properties.

Strings are modelled as Lean `String`s; all character-level work is done on
`String.data` (`List Char`) with executable structural recursion, so that
every definition evaluates inside the kernel.  Python's `str.strip`,
`str.split`, regular-expression matching and list sorting are embedded by
equivalent explicit functions; the deterministic fragments of the regexes
used by the source (character classes separated by disjoint literals) are
compiled to maximal-run scanners, which match exactly the same strings.
-/

/-- ASCII whitespace, as Python's `str.strip`/`\s` treat it
(space, tab, newline, carriage return, vertical tab, form feed). -/
def pySpace (c : Char) : Bool :=
  c = ' ' || c = '\t' || c = '\n' || c = '\r' || c = Char.ofNat 11 || c = Char.ofNat 12

/-- ASCII decimal digit (`\d`). -/
def isDigitC (c : Char) : Bool :=
  '0' ≤ c && c ≤ '9'

/-- ASCII uppercase letter. -/
def isUpperC (c : Char) : Bool :=
  'A' ≤ c && c ≤ 'Z'

/-- ASCII lowercase letter. -/
def isLowerC (c : Char) : Bool :=
  'a' ≤ c && c ≤ 'z'

/-- ASCII letter. -/
def isAlphaC (c : Char) : Bool :=
  isUpperC c || isLowerC c

/-- Word character (`\w`, ASCII). -/
def isWordC (c : Char) : Bool :=
  isAlphaC c || isDigitC c || c = '_'

/-- ASCII lower-casing, as Python `str.lower` on ASCII text. -/
def lowerC (c : Char) : Char :=
  if isUpperC c then Char.ofNat (c.toNat + 32) else c

/-- Python `str.lstrip()`. -/
def lstripL (l : List Char) : List Char :=
  l.dropWhile pySpace

/-- Python `str.rstrip()`. -/
def rstripL (l : List Char) : List Char :=
  (l.reverse.dropWhile pySpace).reverse

/-- Python `str.strip()`. -/
def stripL (l : List Char) : List Char :=
  rstripL (lstripL l)

/-- Boolean list-prefix test. -/
def isPreL : List Char → List Char → Bool
  | [], _ => true
  | _ :: _, [] => false
  | a :: as, b :: bs => a = b && isPreL as bs

/-- Boolean substring test (Python `needle in hay`). -/
def hasInfixL (hay needle : List Char) : Bool :=
  isPreL needle hay ||
    match hay with
    | [] => false
    | _ :: t => hasInfixL t needle

/-- Strip a literal from the front, returning the remainder on success. -/
def litL : List Char → List Char → Option (List Char)
  | [], s => some s
  | _ :: _, [] => none
  | a :: as, b :: bs => if a = b then litL as bs else none

/-- Split a list on one separator character; mirrors Python `str.split(sep)`. -/
def splitSepL (sep : Char) : List Char → List (List Char)
  | [] => [[]]
  | c :: t =>
    if c = sep then [] :: splitSepL sep t
    else
      match splitSepL sep t with
      | [] => [[c]]
      | h :: r => (c :: h) :: r

/-- Join with one separator character (inverse of `splitSepL`). -/
def joinSepL (sep : Char) : List (List Char) → List Char
  | [] => []
  | [l] => l
  | l :: r => l ++ sep :: joinSepL sep r

/-- Python whitespace split `str.split()` (run-separated words), accumulator form. -/
def splitWSAux : List Char → List Char → List (List Char)
  | cur, [] => if cur = [] then [] else [cur.reverse]
  | cur, c :: t =>
    if pySpace c then
      if cur = [] then splitWSAux [] t else cur.reverse :: splitWSAux [] t
    else splitWSAux (c :: cur) t

/-- Python `str.split()` with no argument. -/
def splitWSL (l : List Char) : List (List Char) :=
  splitWSAux [] l

/-- Python `' '.join(words)`. -/
def joinWSL (ws : List (List Char)) : List Char :=
  joinSepL ' ' ws

/-- Value of a digit list, as Python `int`. -/
def natOfDigits (l : List Char) : Nat :=
  l.foldl (fun acc c => 10 * acc + (c.toNat - '0'.toNat)) 0

/-- String-level helpers. -/
def stripS (s : String) : String := String.mk (stripL s.data)

def rstripS (s : String) : String := String.mk (rstripL s.data)

def startsWithS (s pre : String) : Bool := isPreL pre.data s.data

def hasInfixS (s sub : String) : Bool := hasInfixL s.data sub.data

def lowerS (s : String) : String := String.mk (s.data.map lowerC)

/-- Split a document into lines, Python `text.split('\n')`. -/
def splitLinesS (s : String) : List String :=
  (splitSepL '\n' s.data).map String.mk

/-- Rejoin lines, Python `'\n'.join(lines)`. -/
def joinLinesS (ls : List String) : String :=
  String.mk (joinSepL '\n' (ls.map String.data))

/-- Lexicographic (code-point) string order, Python `<=` on `str`. -/
def leStrL : List Char → List Char → Bool
  | [], _ => true
  | _ :: _, [] => false
  | a :: as, b :: bs =>
    if a.toNat < b.toNat then true
    else if a.toNat = b.toNat then leStrL as bs
    else false

def leStrS (a b : String) : Bool := leStrL a.data b.data

/-!  Header Normalizer (`remove_page_headers`).

The thirteen single-line header regexes of the source, compiled to
scanners.  Each regex alternates character-class runs with literals drawn
from disjoint alphabets, so greedy matching is deterministic and each
pattern is matched by taking maximal runs. -/

/-- Maximal run of characters satisfying `p` and the remainder. -/
def spanP (p : Char → Bool) (s : List Char) : List Char × List Char :=
  (s.takeWhile p, s.dropWhile p)

/-- `[A-Za-z\s]` as in the facility-name pattern. -/
def isAlphaSpaceC (c : Char) : Bool := isAlphaC c || pySpace c

/-- Drop the last `n` elements. -/
def dropLastN (n : Nat) (l : List Char) : List Char :=
  l.take (l.length - n)

/-- Boolean list-suffix test. -/
def endsWithL (l suf : List Char) : Bool :=
  isPreL suf.reverse l.reverse

/-- `^Medilodge (at the Shore|of [A-Za-z\s]+?( - SNF)?)$` -/
def medilodgeB (s : List Char) : Bool :=
  s = "Medilodge at the Shore".data ||
    (match litL "Medilodge of ".data s with
     | some r =>
       (!r.isEmpty && r.all isAlphaSpaceC) ||
         (endsWithL r " - SNF".data &&
           (let x := dropLastN 6 r
            !x.isEmpty && x.all isAlphaSpaceC))
     | none => false)

/-- `^Date: \w+ \d+, \d{4}$` -/
def dateB (s : List Char) : Bool :=
  match litL "Date: ".data s with
  | none => false
  | some r =>
    let (w, r1) := spanP isWordC r
    if w.isEmpty then false else
    match litL " ".data r1 with
    | none => false
    | some r2 =>
      let (d, r3) := spanP isDigitC r2
      if d.isEmpty then false else
      match litL ", ".data r3 with
      | none => false
      | some r4 => r4.length = 4 && r4.all isDigitC

/-- `^Time: \d{2}:\d{2}:\d{2} ET` (prefix match; trailing text free). -/
def timeB (s : List Char) : Bool :=
  match litL "Time: ".data s with
  | none => false
  | some r =>
    match r with
    | a :: b :: ':' :: c :: d :: ':' :: e :: f :: r2 =>
      isDigitC a && isDigitC b && isDigitC c && isDigitC d &&
        isDigitC e && isDigitC f && (litL " ET".data r2).isSome
    | _ => false

/-- `\d{1,2}/\d{1,2}/\d{4}` followed by a non-digit continuation;
returns the remainder after the four-digit year. -/
def dateMDYL (s : List Char) : Option (List Char) :=
  let (d1, r1) := spanP isDigitC s
  if d1.isEmpty || 2 < d1.length then none else
  match litL "/".data r1 with
  | none => none
  | some r2 =>
    let (d2, r3) := spanP isDigitC r2
    if d2.isEmpty || 2 < d2.length then none else
    match litL "/".data r3 with
    | none => none
    | some r4 =>
      let (y, r5) := spanP isDigitC r4
      if y.length = 4 then some r5 else none

/-- `^Admissions \d{1,2}/\d{1,2}/\d{4} To \d{1,2}/\d{1,2}/\d{4} - Discharges
\d{1,2}/\d{1,2}/\d{4} To \d{1,2}/\d{1,2}/\d{4}User:.*$` -/
def admDisB (s : List Char) : Bool :=
  match litL "Admissions ".data s with
  | none => false
  | some r0 =>
  match dateMDYL r0 with
  | none => false
  | some r1 =>
  match litL " To ".data r1 with
  | none => false
  | some r2 =>
  match dateMDYL r2 with
  | none => false
  | some r3 =>
  match litL " - Discharges ".data r3 with
  | none => false
  | some r4 =>
  match dateMDYL r4 with
  | none => false
  | some r5 =>
  match litL " To ".data r5 with
  | none => false
  | some r6 =>
  match dateMDYL r6 with
  | none => false
  | some r7 => (litL "User:".data r7).isSome

/-- `^Page \d+ of \d+$` -/
def pageB (s : List Char) : Bool :=
  match litL "Page ".data s with
  | none => false
  | some r =>
    let (d1, r1) := spanP isDigitC r
    if d1.isEmpty then false else
    match litL " of ".data r1 with
    | none => false
    | some r2 =>
      let (d2, r3) := spanP isDigitC r2
      !d2.isEmpty && r3.isEmpty

/-- The single-line header patterns, in source order, with their category
keys; the first matching category wins, as with the source's pattern loop. -/
def matchHeaderCat (ls : String) : Option String :=
  let s := ls.data
  if medilodgeB s then some "facility_name"
  else if dateB s then some "date"
  else if timeB s then some "time"
  else if s = "Admission/Discharge To/From Report".data then some "report_title"
  else if admDisB s then some "admissions_discharges"
  else if pageB s then some "page_number"
  else if s = "Detail".data then some "detail"
  else if isPreL "Facilities:".data s then some "facilities"
  else if isPreL "Admissions:".data s then some "admissions_label"
  else if isPreL "Discharges:".data s then some "discharges_label"
  else if isPreL "Report by:".data s then some "report_by"
  else if isPreL "Report:".data s then some "report"
  else if isPreL "Sort by:".data s then some "sort_by"
  else none

/-- Multi-line header keys, tested in source order on the stripped line. -/
def multiKey (ls : String) : Option String :=
  if startsWithS ls "Report by:" then some "report_by_multiline"
  else if startsWithS ls "To/From Type:" then some "to_from_type"
  else if hasInfixS ls "Court/Law Enforcement" then some "court_law_enforcement"
  else if startsWithS ls "Facilities:" && hasInfixS ls "Medilodge" then some "facilities_multiline"
  else none

/-- Continuation-line test: the next line, stripped and lowercased,
mentions a facility-type enumeration fragment. -/
def contTest (next : String) : Bool :=
  let n := lowerS (stripS next)
  hasInfixS n "and care" || hasInfixS n "nursing home" || hasInfixS n "rehabilitation"

/-- Seen-header state of the normalizer loop. -/
structure SeenHeaders where
  single : List String
  multi : List String
deriving Repr, DecidableEq

/-- Remaining body of one loop iteration after the single-line pattern
loop kept the line as a first occurrence or matched nothing (`is_header`
still false): the multi-line check followed by the final
`if not is_header` append.  Returns the lines emitted by this part, the
updated seen-state, and whether the continuation line (the next input
line) was consumed as part of a first-occurrence multi-line header. -/
def afterHeaderLoop (seen : SeenHeaders) (line : String) (ls : String)
    (rest : List String) : List String × SeenHeaders × Bool :=
  if ls ≠ "" then
    match multiKey ls with
    | some k =>
      if k ∈ seen.multi then
        -- repeated multi-line header: deleted (the possible extra index
        -- bump before `continue` replaces the loop's own increment, so
        -- only this line is consumed)
        ([], seen, false)
      else
        let seen := { seen with multi := seen.multi ++ [k] }
        match rest with
        | next :: _ =>
          if contTest next then
            let ck := k ++ "_continuation"
            if ck ∈ seen.multi then
              ([line], seen, false)
            else
              let seen := { seen with multi := seen.multi ++ [ck] }
              ([line, next], seen, true)
          else ([line], seen, false)
        | [] => ([line], seen, false)
    | none => ([line], seen, false)
  else ([line], seen, false)

/-- The line-deletion loop of `remove_page_headers`, faithful to the
source's control flow: the first occurrence of a single-line category is
appended by the pattern loop and again by the fall-through append; repeats
are deleted; first occurrences of multi-line keys are appended (again) and
may consume a continuation line; repeated multi-line headers are deleted. -/
def processLines (seen : SeenHeaders) : List String → List String
  | [] => []
  | line :: rest =>
    let ls := stripS line
    match matchHeaderCat ls with
    | some c =>
      if c ∈ seen.single then
        -- repeat: removed; multi-line check and fall-through both skipped
        processLines seen rest
      else
        -- first occurrence: appended by the pattern loop, then the
        -- multi-line check and the fall-through append still run
        let seen1 := { seen with single := seen.single ++ [c] }
        let r := afterHeaderLoop seen1 line ls rest
        if r.2.2 then
          match rest with
          | _ :: rest2 => line :: (r.1 ++ processLines r.2.1 rest2)
          | [] => line :: (r.1 ++ processLines r.2.1 [])
        else line :: (r.1 ++ processLines r.2.1 rest)
    | none =>
      let r := afterHeaderLoop seen line ls rest
      if r.2.2 then
        match rest with
        | _ :: rest2 => r.1 ++ processLines r.2.1 rest2
        | [] => r.1 ++ processLines r.2.1 []
      else r.1 ++ processLines r.2.1 rest

/-- `remove_page_headers`: delete repeated per-page boilerplate, keeping
first occurrences, with the three safety aborts of the source. -/
def removePageHeaders (text : String) : String :=
  if text = "" then "" else
  let lines := splitLinesS text
  let cleaned := processLines ⟨[], []⟩ lines
  let result := joinLinesS cleaned
  -- abort if more than 50% of the lines would be deleted
  if 2 * cleaned.length < lines.length then text
  -- abort if the result is under 30% of the original stripped character
  -- length (the source compares against the float product `len * 0.3`;
  -- the exact rational 3/10 used here is what the specified 30% denotes)
  else if 10 * (stripS result).data.length < 3 * (stripS text).data.length then text
  -- abort if the result is empty
  else if result = "" ∨ (stripS result).data.length = 0 then text
  else result

/-!  Inversion lemmas for line splitting and joining. -/

theorem splitSepL_ne_nil (sep : Char) (l : List Char) : splitSepL sep l ≠ [] := by
  cases l with
  | nil => simp [splitSepL]
  | cons c t =>
    simp only [splitSepL]
    split
    · simp
    · split <;> simp

theorem joinSepL_splitSepL (sep : Char) (l : List Char) :
    joinSepL sep (splitSepL sep l) = l := by
  induction l with
  | nil => rfl
  | cons c t ih =>
    obtain ⟨h, r, e⟩ : ∃ h r, splitSepL sep t = h :: r := by
      cases e : splitSepL sep t with
      | nil => exact absurd e (splitSepL_ne_nil sep t)
      | cons h r => exact ⟨h, r, rfl⟩
    by_cases hc : c = sep
    · simp only [splitSepL, if_pos hc, e]
      show sep :: joinSepL sep (h :: r) = c :: t
      rw [hc, ← e, ih]
    · simp only [splitSepL, if_neg hc, e]
      cases r with
      | nil =>
        show c :: h = c :: t
        have h2 := ih; rw [e] at h2
        simpa [joinSepL] using congrArg (c :: ·) h2
      | cons h2 r2 =>
        show (c :: h) ++ sep :: joinSepL sep (h2 :: r2) = c :: t
        have h3 := ih; rw [e] at h3
        simp only [joinSepL] at h3
        simpa [joinSepL] using h3

theorem splitSepL_of_not_mem {sep : Char} {p : List Char} (h : sep ∉ p) :
    splitSepL sep p = [p] := by
  induction p with
  | nil => rfl
  | cons c t ih =>
    have hc : c ≠ sep := fun e => h (e ▸ List.mem_cons_self c t)
    have ht : sep ∉ t := fun m => h (List.mem_cons_of_mem c m)
    simp only [splitSepL, if_neg hc, ih ht]

theorem splitSepL_append {sep : Char} {p rest : List Char} (h : sep ∉ p) :
    splitSepL sep (p ++ sep :: rest) = p :: splitSepL sep rest := by
  induction p with
  | nil => simp [splitSepL]
  | cons c t ih =>
    have hc : c ≠ sep := fun e => h (e ▸ List.mem_cons_self c t)
    have ht : sep ∉ t := fun m => h (List.mem_cons_of_mem c m)
    have h3 : splitSepL sep (t.append (sep :: rest)) = t :: splitSepL sep rest := ih ht
    simp only [List.cons_append, splitSepL, if_neg hc, h3]

theorem splitSepL_joinSepL (sep : Char) (ps : List (List Char)) (h1 : ps ≠ [])
    (h2 : ∀ p ∈ ps, sep ∉ p) : splitSepL sep (joinSepL sep ps) = ps := by
  induction ps with
  | nil => exact absurd rfl h1
  | cons p q ih =>
    cases q with
    | nil =>
      show splitSepL sep (joinSepL sep [p]) = [p]
      simp only [joinSepL]
      exact splitSepL_of_not_mem (h2 p (List.mem_cons_self p []))
    | cons q r =>
      show splitSepL sep (p ++ sep :: joinSepL sep (q :: r)) = p :: q :: r
      rw [splitSepL_append (h2 p (List.mem_cons_self p _))]
      rw [ih (by simp) (fun x hx => h2 x (List.mem_cons_of_mem p hx))]

theorem mem_splitSepL_not_mem (sep : Char) (l : List Char) :
    ∀ p ∈ splitSepL sep l, sep ∉ p := by
  induction l with
  | nil =>
    intro p hp
    simp only [splitSepL, List.mem_singleton] at hp
    simp [hp]
  | cons c t ih =>
    intro p hp
    by_cases hc : c = sep
    · simp only [splitSepL, if_pos hc, List.mem_cons] at hp
      rcases hp with hp | hp
      · simp [hp]
      · exact ih p hp
    · obtain ⟨h, r, e⟩ : ∃ h r, splitSepL sep t = h :: r := by
        cases e : splitSepL sep t with
        | nil => exact absurd e (splitSepL_ne_nil sep t)
        | cons h r => exact ⟨h, r, rfl⟩
      simp only [splitSepL, if_neg hc, e, List.mem_cons] at hp
      rcases hp with hp | hp
      · subst hp
        intro hm
        rcases List.mem_cons.mp hm with hm | hm
        · exact hc hm.symm
        · exact ih h (e ▸ List.mem_cons_self h r) hm
      · exact ih p (e ▸ List.mem_cons_of_mem h hp)

theorem string_mk_data (s : String) : String.mk s.data = s := rfl

theorem joinLinesS_splitLinesS (t : String) : joinLinesS (splitLinesS t) = t := by
  unfold joinLinesS splitLinesS
  rw [List.map_map]
  have : (String.data ∘ String.mk) = id := rfl
  rw [this, List.map_id, joinSepL_splitSepL]

theorem splitLinesS_joinLinesS (ls : List String) (h1 : ls ≠ [])
    (h2 : ∀ l ∈ ls, '\n' ∉ l.data) : splitLinesS (joinLinesS ls) = ls := by
  unfold splitLinesS joinLinesS
  show (splitSepL '\n' (joinSepL '\n' (ls.map String.data))).map String.mk = ls
  rw [splitSepL_joinSepL '\n' (ls.map String.data) (by simpa using h1)
      (by intro p hp; obtain ⟨l, hl, rfl⟩ := List.mem_map.mp hp; exact h2 l hl)]
  rw [List.map_map]
  have : (String.mk ∘ String.data) = id := by
    funext s; exact string_mk_data s
  rw [this, List.map_id]

theorem mem_splitLinesS_no_newline (t : String) :
    ∀ l ∈ splitLinesS t, '\n' ∉ l.data := by
  intro l hl
  obtain ⟨p, hp, rfl⟩ := List.mem_map.mp hl
  exact mem_splitSepL_not_mem '\n' t.data p hp

/-- When the stripped line matches no multi-line header key, the
post-pattern-loop part of an iteration just appends the line once and
leaves the state untouched. -/
theorem afterHeaderLoop_of_multiKey_none (seen : SeenHeaders) (line ls : String)
    (rest : List String) (h : multiKey ls = none) :
    afterHeaderLoop seen line ls rest = ([line], seen, false) := by
  unfold afterHeaderLoop
  by_cases he : ls = ""
  · simp [he]
  · simp [he, h]

/-- Every line kept by the deletion loop is a line of the input, provided
no input line engages the multi-line header machinery. -/
theorem mem_of_mem_processLines (ls : List String) :
    ∀ (seen : SeenHeaders) (l : String),
      (∀ x ∈ ls, multiKey (stripS x) = none) →
      l ∈ processLines seen ls → l ∈ ls := by
  induction ls with
  | nil => intro seen l _ h; simp [processLines] at h
  | cons line rest ih =>
    intro seen l H h
    have hline : multiKey (stripS line) = none := H line (List.mem_cons_self _ _)
    have Hrest : ∀ x ∈ rest, multiKey (stripS x) = none :=
      fun x hx => H x (List.mem_cons_of_mem _ hx)
    rw [List.mem_cons]
    cases hm : matchHeaderCat (stripS line) with
    | some c =>
      by_cases hc : c ∈ seen.single
      · simp only [processLines, hm, if_pos hc] at h
        exact Or.inr (ih seen l Hrest h)
      · simp only [processLines, hm, if_neg hc,
          afterHeaderLoop_of_multiKey_none _ _ _ _ hline, List.singleton_append,
          List.mem_cons] at h
        simp only [Bool.false_eq_true, if_false, List.mem_cons] at h
        rcases h with h | h | h
        · exact Or.inl h
        · exact Or.inl h
        · exact Or.inr (ih _ l Hrest h)
    | none =>
      simp only [processLines, hm,
        afterHeaderLoop_of_multiKey_none _ _ _ _ hline, List.singleton_append] at h
      simp only [Bool.false_eq_true, if_false, List.mem_cons] at h
      rcases h with h | h
      · exact Or.inl h
      · exact Or.inr (ih _ l Hrest h)

/-- Step equation: a line matching no header pattern is kept unchanged. -/
theorem processLines_cons_none (seen : SeenHeaders) (line : String)
    (rest : List String) (hm : matchHeaderCat (stripS line) = none)
    (hk : multiKey (stripS line) = none) :
    processLines seen (line :: rest) = line :: processLines seen rest := by
  simp only [processLines, hm, afterHeaderLoop_of_multiKey_none _ _ _ _ hk,
    List.singleton_append, Bool.false_eq_true, if_false]

/-- Step equation: a repeated single-line header is deleted. -/
theorem processLines_cons_repeat (seen : SeenHeaders) (line : String)
    (rest : List String) (c : String) (hm : matchHeaderCat (stripS line) = some c)
    (hc : c ∈ seen.single) :
    processLines seen (line :: rest) = processLines seen rest := by
  simp only [processLines, hm, if_pos hc]

/-- Step equation: the first occurrence of a single-line header category is
kept twice (once by the pattern loop, once by the fall-through append). -/
theorem processLines_cons_first (seen : SeenHeaders) (line : String)
    (rest : List String) (c : String) (hm : matchHeaderCat (stripS line) = some c)
    (hc : c ∉ seen.single) (hk : multiKey (stripS line) = none) :
    processLines seen (line :: rest) =
      line :: line :: processLines ⟨seen.single ++ [c], seen.multi⟩ rest := by
  simp only [processLines, hm, if_neg hc, afterHeaderLoop_of_multiKey_none _ _ _ _ hk,
    List.singleton_append, Bool.false_eq_true, if_false]

/-- Core of the idempotence property: when no line engages the multi-line
header machinery, re-running the deletion loop on its own output (from the
same start state) changes nothing. -/
theorem processLines_idem (ls : List String) :
    ∀ seen : SeenHeaders,
      (∀ x ∈ ls, multiKey (stripS x) = none) →
      processLines seen (processLines seen ls) = processLines seen ls := by
  induction ls with
  | nil => intro seen _; rfl
  | cons line rest ih =>
    intro seen H
    have hline : multiKey (stripS line) = none := H line (List.mem_cons_self _ _)
    have Hrest : ∀ x ∈ rest, multiKey (stripS x) = none :=
      fun x hx => H x (List.mem_cons_of_mem _ hx)
    cases hm : matchHeaderCat (stripS line) with
    | none =>
      rw [processLines_cons_none seen line rest hm hline,
        processLines_cons_none seen line _ hm hline, ih seen Hrest]
    | some c =>
      by_cases hc : c ∈ seen.single
      · rw [processLines_cons_repeat seen line rest c hm hc, ih seen Hrest]
      · rw [processLines_cons_first seen line rest c hm hc hline]
        rw [processLines_cons_first seen line _ c hm hc hline]
        have hc1 : c ∈ (SeenHeaders.mk (seen.single ++ [c]) seen.multi).single := by simp
        rw [processLines_cons_repeat _ line _ c hm hc1]
        rw [ih _ Hrest]

/-- If the deletion loop leaves the line list of `y` fixed, the normalizer
leaves `y` fixed (every abort branch returns the input as well). -/
theorem removePageHeaders_fixed (y : String)
    (h : processLines ⟨[], []⟩ (splitLinesS y) = splitLinesS y) :
    removePageHeaders y = y := by
  unfold removePageHeaders
  by_cases h0 : y = ""
  · rw [if_pos h0, h0]
  · rw [if_neg h0]
    simp only [h, joinLinesS_splitLinesS]
    split_ifs <;> rfl

/-- Claim C7: for every non-empty input text, `remove_page_headers` returns
the original text unchanged whenever removal would delete more than 50% of
all lines, or the normalized result is less than 30% of the original
(stripped) character length, or the result would be empty; consequently its
output is never empty when its input is non-empty. -/
theorem removePageHeaders_safety (text : String) (h : text ≠ "") :
    (2 * (processLines ⟨[], []⟩ (splitLinesS text)).length < (splitLinesS text).length →
      removePageHeaders text = text) ∧
    (10 * (stripS (joinLinesS (processLines ⟨[], []⟩ (splitLinesS text)))).data.length <
        3 * (stripS text).data.length →
      removePageHeaders text = text) ∧
    (joinLinesS (processLines ⟨[], []⟩ (splitLinesS text)) = "" ∨
        (stripS (joinLinesS (processLines ⟨[], []⟩ (splitLinesS text)))).data.length = 0 →
      removePageHeaders text = text) ∧
    removePageHeaders text ≠ "" := by
  unfold removePageHeaders
  rw [if_neg h]
  dsimp only
  refine ⟨?_, ?_, ?_, ?_⟩
  · intro hyp; split_ifs <;> rfl
  · intro hyp; split_ifs <;> rfl
  · intro hyp; split_ifs <;> rfl
  · split_ifs with h1 h2 h3
    · exact h
    · exact h
    · exact h
    · exact fun e => h3 (Or.inl e)

/-- Witness for claim C7: a five-fold repeated header line triggers the
50%-deletion abort and the normalizer reverts to the original text; a plain
one-character document yields non-empty output. -/
theorem removePageHeaders_safety_witness :
    (("Detail\nDetail\nDetail\nDetail\nDetail" : String) ≠ "") ∧
    removePageHeaders "Detail\nDetail\nDetail\nDetail\nDetail" =
      "Detail\nDetail\nDetail\nDetail\nDetail" ∧
    removePageHeaders "a" ≠ "" :=
  ⟨by decide,
   (removePageHeaders_safety "Detail\nDetail\nDetail\nDetail\nDetail" (by decide)).1
     (by decide),
   (removePageHeaders_safety "a" (by decide)).2.2.2⟩

/-- Counterexample to claim C8: the header normalizer is not idempotent.
On `"Report by: nursing home"` the first pass duplicates the line (the
pattern loop and the fall-through append both keep the first occurrence);
on the duplicated output the multi-line continuation check consumes the
second copy as a continuation line and keeps it again, so the text grows
from two lines to three. -/
theorem removePageHeaders_not_idem :
    removePageHeaders (removePageHeaders "Report by: nursing home") ≠
      removePageHeaders "Report by: nursing home" := by decide

/-- Claim C8 (amended): the header normalizer is idempotent on every text
none of whose lines engages a multi-line header key (`Report by:`,
`To/From Type:`, `Court/Law Enforcement`, or a `Facilities:` line naming
Medilodge); in general a second application can differ, as
the counterexample shows. -/
theorem removePageHeaders_idem_of_no_multiline (text : String)
    (H : ∀ l ∈ splitLinesS text, multiKey (stripS l) = none) :
    removePageHeaders (removePageHeaders text) = removePageHeaders text := by
  by_cases h0 : text = ""
  · rw [h0]; rfl
  · have hbr : removePageHeaders text = text ∨
        (removePageHeaders text =
            joinLinesS (processLines ⟨[], []⟩ (splitLinesS text)) ∧
          joinLinesS (processLines ⟨[], []⟩ (splitLinesS text)) ≠ "") := by
      unfold removePageHeaders
      rw [if_neg h0]
      dsimp only
      split_ifs with h1 h2 h3
      · exact Or.inl rfl
      · exact Or.inl rfl
      · exact Or.inl rfl
      · exact Or.inr ⟨rfl, fun e => h3 (Or.inl e)⟩
    rcases hbr with hb | ⟨hb, hne⟩
    · rw [hb]; exact hb
    · rw [hb]
      apply removePageHeaders_fixed
      have hclean_ne : processLines ⟨[], []⟩ (splitLinesS text) ≠ [] := by
        intro e; apply hne; rw [e]; rfl
      have hnl : ∀ l ∈ processLines ⟨[], []⟩ (splitLinesS text), '\n' ∉ l.data := by
        intro l hl
        exact mem_splitLinesS_no_newline text l
          (mem_of_mem_processLines _ _ _ H hl)
      rw [splitLinesS_joinLinesS _ hclean_ne hnl]
      exact processLines_idem _ _ H

/-- Witness for the amended claim C8: a document whose lines engage no
multi-line header key, on which the normalizer is idempotent. -/
theorem removePageHeaders_idem_witness :
    (∀ l ∈ splitLinesS "Date: July 1, 2025\nDate: July 1, 2025\nSmith, John (12345) 1/1/2025",
        multiKey (stripS l) = none) ∧
    removePageHeaders
        (removePageHeaders "Date: July 1, 2025\nDate: July 1, 2025\nSmith, John (12345) 1/1/2025") =
      removePageHeaders "Date: July 1, 2025\nDate: July 1, 2025\nSmith, John (12345) 1/1/2025" :=
  ⟨by decide, removePageHeaders_idem_of_no_multiline _ (by decide)⟩

/-!  Name Cleaner (`clean_name_punctuation`). -/

/-- Characters kept by the name cleaner: letters, digits, space, hyphen,
apostrophe, period. -/
def allowedNameChar (c : Char) : Bool :=
  isAlphaC c || isDigitC c || c = ' ' || c = '-' || c = Char.ofNat 39 || c = '.'

/-- The punctuation set the cleaner deletes outright. -/
def droppedPunct (c : Char) : Bool :=
  "&=+*^%$#@!~`|\\/<>[]\x7b\x7d".data.contains c

/-- Per-character step of the cleaner: keep allowed characters, drop the
punctuation set, map other whitespace to a space, drop the rest. -/
def cleanChar (c : Char) : List Char :=
  if allowedNameChar c then [c]
  else if droppedPunct c then []
  else if pySpace c then [' ']
  else []

/-- `while name and name[0] in set: name = name[1:].strip()`, with fuel
bounded by the length (each iteration removes at least the head). -/
def stripLeadPunct : Nat → List Char → List Char
  | 0, l => l
  | n + 1, l =>
    match l with
    | [] => []
    | c :: t => if droppedPunct c then stripLeadPunct n (stripL t) else c :: t

/-- `while name and name[-1] in set: name = name[:-1].strip()`. -/
def stripTrailPunct : Nat → List Char → List Char
  | 0, l => l
  | n + 1, l =>
    match l.reverse with
    | [] => l
    | c :: t => if droppedPunct c then stripTrailPunct n (stripL t.reverse) else l

/-- `clean_name_punctuation`: drop disallowed punctuation, normalize
whitespace runs and trim stray leading/trailing punctuation. -/
def cleanNamePunctuation (name : String) : String :=
  if name = "" then "" else
  let cleaned := (name.data.map cleanChar).flatten
  let n1 := stripL cleaned
  let n2 := stripLeadPunct n1.length n1
  let n3 := stripTrailPunct n2.length n2
  String.mk (joinWSL (splitWSL n3))

/-!  Resident-entry extraction (`extract_patient_from_line`). -/

/-- One parsed resident line, before grouping. -/
structure PatientInfo where
  last_name : String
  first_name : String
  resident_id : String
  date_str : String
  original_before_comma : String
deriving Repr, DecidableEq

/-- Match `\(([A-Z0-9]{4,10})\)\s+(\d{1,2}/\d{1,2}/\d{4})$` against the
whole remaining text, returning the id and date captures. -/
def idPatMatch (cs : List Char) : Option (String × String) :=
  match cs with
  | '(' :: rest =>
    let (idrun, r1) := spanP (fun c => isUpperC c || isDigitC c) rest
    if idrun.length < 4 || 10 < idrun.length then none else
    match r1 with
    | ')' :: r2 =>
      let (ws, r3) := spanP pySpace r2
      if ws.isEmpty then none else
      let (d1, r4) := spanP isDigitC r3
      if d1.isEmpty || 2 < d1.length then none else
      match r4 with
      | '/' :: r5 =>
        let (d2, r6) := spanP isDigitC r5
        if d2.isEmpty || 2 < d2.length then none else
        match r6 with
        | '/' :: r7 =>
          if r7.length = 4 && r7.all isDigitC then
            some (String.mk idrun, String.mk (d1 ++ '/' :: d2 ++ '/' :: r7))
          else none
        | _ => none
      | _ => none
    | _ => none
  | _ => none

/-- `id_pattern.search`: the leftmost position whose suffix matches the
end-anchored id/date pattern, returning the text before the match and the
two captures. -/
def findIdSplit : List Char → Option (List Char × String × String)
  | [] => none
  | c :: rest =>
    match idPatMatch (c :: rest) with
    | some (rid, ds) => some ([], rid, ds)
    | none =>
      match findIdSplit rest with
      | some (b, rid, ds) => some (c :: b, rid, ds)
      | none => none

/-- `[a-zA-Z\s'-]`, the first-name body class. -/
def fnClassC (c : Char) : Bool :=
  isAlphaC c || pySpace c || c = Char.ofNat 39 || c = '-'

/-- Greedy body length for `^([A-Z][a-zA-Z\s'-]{1,25})\s*$`: the largest
`k ≤ 25` such that the `k` characters after the initial capital are in the
class and the remainder is whitespace. -/
def fnGreedy (s : List Char) : Nat → Option Nat
  | 0 => none
  | k + 1 =>
    if ((s.drop 1).take (k + 1)).length = k + 1 ∧
        ((s.drop 1).take (k + 1)).all fnClassC ∧ (s.drop (k + 2)).all pySpace
    then some (k + 1) else fnGreedy s k

/-- `re.match(r'^([A-Z][a-zA-Z\s\'-]{1,25})\s*$', s)`, returning group 1. -/
def firstNameRe (s : List Char) : Option (List Char) :=
  match s with
  | c :: _ => if isUpperC c then (fnGreedy s 25).map (fun k => s.take (1 + k)) else none
  | [] => none

/-- Indices of a character in a list (Python `enumerate` filter). -/
def idxsOfChar (c : Char) (l : List Char) : List Nat :=
  (l.enum.filter (fun p => p.2 = c)).map (fun p => p.1)

/-- Python `str.upper` on ASCII. -/
def upperC (c : Char) : Char :=
  if isLowerC c then Char.ofNat (c.toNat - 32) else c

/-- The location-keyword list of `extract_patient_from_line`. -/
def locationKeywords : List String :=
  ["COMMUNITY", "HOSPITAL", "CENTER", "CARE", "HEALTH", "PARTNERS", "HOME",
   "ASSISTED", "LIVING", "NURSING", "SUBMIT", "UNDECIDED", "FUNERAL"]

/-- First defined value in a list of options (a loop with early return). -/
def firstSome {α : Type} : List (Option α) → Option α
  | [] => none
  | some a :: _ => some a
  | none :: t => firstSome t

/-- The body of the comma loop of `extract_patient_from_line` at one
candidate comma position. -/
def tryComma (before_id : List Char) (rid ds : String) (p : Nat) :
    Option PatientInfo :=
  let after_comma := stripL (before_id.drop (p + 1))
  match firstNameRe after_comma with
  | none => none
  | some grp =>
    let first_name := String.mk (stripL grp)
    let first_words := splitWSL first_name.data
    let last_name := String.mk (stripL (before_id.take p))
    if first_words.length ≤ 2 ∧ first_name.data.length ≤ 25 then
      let last_name1 := String.mk (joinWSL (splitWSL last_name.data))
      let first_name1 := String.mk (joinWSL (splitWSL first_name.data))
      let last_name2 := cleanNamePunctuation last_name1
      let first_name2 := cleanNamePunctuation first_name1
      -- trim to the last two words when the cleaned last name exceeds 3 words
      let lwac := splitWSL last_name2.data
      let last_name3 :=
        if 3 < lwac.length then
          if 2 ≤ lwac.length then String.mk (joinWSL (lwac.drop (lwac.length - 2)))
          else match lwac.getLast? with
               | some w => String.mk w
               | none => last_name2
        else last_name2
      -- keyword / length repair, computed from the raw word split
      let last_words := splitWSL last_name.data
      let lnUpper := last_name3.data.map upperC
      let kwHit := locationKeywords.any (fun kw => hasInfixL lnUpper kw.data)
      let last_name4 :=
        if 3 < last_words.length ∨ kwHit then
          if 2 ≤ last_words.length then
            let potential := joinWSL (last_words.drop (last_words.length - 2))
            let sndLast := last_words.getD (last_words.length - 2) []
            if locationKeywords.contains (String.mk (sndLast.map upperC)) then
              String.mk (last_words.getD (last_words.length - 1) [])
            else String.mk potential
          else match last_words.getLast? with
               | some w => String.mk w
               | none => last_name3
        else last_name3
      -- final whitespace cleanup and second punctuation pass
      let last_name5 := cleanNamePunctuation (String.mk (joinWSL (splitWSL last_name4.data)))
      let first_name5 := cleanNamePunctuation (String.mk (joinWSL (splitWSL first_name2.data)))
      some { last_name := last_name5, first_name := first_name5,
             resident_id := rid, date_str := ds,
             original_before_comma := String.mk (stripL (before_id.take p)) }
    else none

/-- `extract_patient_from_line`: anchor on the trailing `(id) date`, pick
the name comma (with the ampersand special case, including its off-by-
whitespace index arithmetic), and clean the parts. -/
def extractPatientFromLine (lineText : String) : Option PatientInfo :=
  match findIdSplit lineText.data with
  | none => none
  | some (before, rid, ds) =>
    let before_id := rstripL before
    let comma_positions :=
      if before_id.contains '&' then
        match (idxsOfChar '&' before_id).getLast? with
        | some amp_pos =>
          let npa := stripL (before_id.drop (amp_pos + 1))
          let cps := (idxsOfChar ',' npa).map (fun i => amp_pos + 1 + i)
          if cps ≠ [] then cps else idxsOfChar ',' before_id
        | none => idxsOfChar ',' before_id
      else idxsOfChar ',' before_id
    firstSome (comma_positions.reverse.map (tryComma before_id rid ds))

/-!  Block/Entry Parser (`parse_section_with_python`). -/

/-- One emitted resident entry (`from_*`/`to_*` keys abstracted to a
section-independent type/location pair). -/
structure PEntry where
  etype : String
  elocation : Option String
  resident_name : String
  resident_id : String
  effective_date : String
deriving Repr, DecidableEq

/-- One recorded subtotal checkpoint. -/
structure SubT where
  stype : String
  slocation : Option String
  count : Nat
  source : String
deriving Repr, DecidableEq

/-- Parser state threaded through the section loop. -/
structure PState where
  current_type : Option String
  current_location : Option String
  current_block_entries : List PEntry
  entries : List PEntry
  subtotals : List SubT
deriving Repr, DecidableEq

def initPState : PState := ⟨none, none, [], [], []⟩

/-- The known facility types, in source order. -/
def facilityTypes : List String :=
  ["Acute care hospital", "Funeral Home", "Nursing home",
   "Private home/apt. with home health services",
   "Private home/apt. with no home health services", "Home with Hospice",
   "Board and care/assisted living/group home", "Other Health Facility",
   "Other", "Unknown", "Psychiatric hospital, MR/DD facility",
   "Rehabilitation hospital"]

/-- `MM/DD/YYYY` → `YYYY-MM-DD` with zero padding (`normalize_date`). -/
def zfill2 (l : List Char) : List Char :=
  if 2 ≤ l.length then l else List.replicate (2 - l.length) '0' ++ l

def normalizeDate (ds : String) : String :=
  match splitSepL '/' ds.data with
  | [m, d, y] => String.mk (y ++ '-' :: zfill2 m ++ '-' :: zfill2 d)
  | _ => ds

/-- `re.search(r'^Total:\s*(\d+)', line, re.IGNORECASE)`: the anchored
case-insensitive checkpoint pattern, returning the count. -/
def totalMatch (line : String) : Option Nat :=
  match litL "total:".data (line.data.map lowerC) with
  | none => none
  | some _ =>
    let r := (line.data.drop 6).dropWhile pySpace
    let (ds, _) := spanP isDigitC r
    if ds.isEmpty then none else some (natOfDigits ds)

/-- First-occurrence index of a substring (Python `str.index`); an empty
needle matches at 0. -/
def findSubIdx (hay needle : List Char) : Option Nat :=
  if isPreL needle hay then some 0
  else
    match hay with
    | [] => none
    | _ :: t => (findSubIdx t needle).map (· + 1)

/-- Last-occurrence start index of a substring (Python `str.rfind`); an
empty needle matches at the length. -/
def rfindSubIdx (hay needle : List Char) : Option Nat :=
  (List.range (hay.length + 1)).reverse.find? (fun i => isPreL needle (hay.drop i))

/-- Python `str.lstrip(chars)`. -/
def lstripSet (cs l : List Char) : List Char :=
  l.dropWhile (fun c => cs.contains c)

/-- The location suffixes cleaned off block-header remainders. -/
def locSuffixes : List String :=
  [" - BOM submit ticket to", " not in list - BOM submit", " - MERCY"]

/-- Suffix cleanup in the type-plus-patient branch: every matching suffix
is applied in order (the loop has no break). -/
def suffixCleanupAll (lt : List Char) : List Char :=
  locSuffixes.foldl
    (fun acc suf =>
      if hasInfixL acc suf.data then
        match findSubIdx acc suf.data with
        | some i => stripL (acc.take i)
        | none => acc
      else acc) lt

/-- Suffix cleanup in the type-only branch: the loop breaks after the
first matching suffix. -/
def suffixCleanupFirst : List String → List Char → List Char
  | [], lt => lt
  | suf :: rest, lt =>
    if hasInfixL lt suf.data then
      match findSubIdx lt suf.data with
      | some i => stripL (lt.take i)
      | none => lt
    else suffixCleanupFirst rest lt

/-- Falsiness of a string option (Python `x if x else None`). -/
def falsyLoc : Option String → Option String
  | none => none
  | some s => if s = "" then none else some s

/-- An empty location list is Python-falsy and becomes `None`. -/
def mkLocOpt (l : List Char) : Option String :=
  if l = [] then none else some (String.mk l)

/-- Location extraction when a facility-type line also carries a resident:
the text of `original_before_comma` left of the extracted last name, with
the ampersand split preferred (`create` of `location_text`). -/
def extractLocationFromTypeLine (obc eln : String) : List Char :=
  let obcL := obc.data
  if obcL.contains '&' then
    match (idxsOfChar '&' obcL).getLast? with
    | some amp =>
      let locT := stripL (obcL.take amp)
      let npa := stripL (obcL.drop (amp + 1))
      let ec := stripL (lstripSet "& ".data eln.data)
      let fw := match splitWSL ec with
                | w :: _ => w
                | [] => []
      if ¬ (isPreL fw npa = true) then
        let words := splitWSL obcL
        if 1 < words.length then stripL (joinWSL (words.take (words.length - 1)))
        else []
      else locT
    | none => []
  else if endsWithL obcL eln.data then
    stripL (obcL.take (obcL.length - eln.data.length))
  else
    let ec := stripL (lstripSet "& ".data eln.data)
    let fw := match splitWSL ec with
              | w :: _ => w
              | [] => []
    match rfindSubIdx obcL fw with
    | some p => stripL (obcL.take p)
    | none =>
      let words := splitWSL obcL
      if 2 < words.length then stripL (joinWSL (words.take (words.length - 2)))
      else []

/-- The `' - '` split applied to a candidate location, taking the first
part when present (`location_text.split(' - ', 1)[0]`). -/
def locDashSplit (lt : List Char) : Option String :=
  if hasInfixL lt " - ".data then
    match findSubIdx lt " - ".data with
    | some i => mkLocOpt (stripL (lt.take i))
    | none => none
  else mkLocOpt lt

/-- The facility-type / continuation part of one loop iteration: open a
facility block (extracting its location, and the entry when the resident
is on the same line), or emit a continuation/standalone entry. -/
def applyFacilityOrPatient (st : PState) (line : String) : PState :=
  let mt := facilityTypes.find? (fun ft => startsWithS line ft)
  match mt with
  | some ft =>
    let stT := { st with current_type := some ft }
    let remaining := stripS (String.mk (line.data.drop ft.data.length))
    match extractPatientFromLine remaining with
    | some pi =>
      let lt0 := extractLocationFromTypeLine pi.original_before_comma pi.last_name
      let lt1 := suffixCleanupAll lt0
      let newLoc :=
        if hasInfixL lt1 " - ".data then
          match findSubIdx lt1 " - ".data with
          | some i => mkLocOpt (stripL (lt1.take i))
          | none => none
        else mkLocOpt lt1
      let ln := cleanNamePunctuation pi.last_name
      let fn := cleanNamePunctuation pi.first_name
      let e : PEntry := ⟨ft, newLoc, ln ++ ", " ++ fn, pi.resident_id,
                         normalizeDate pi.date_str⟩
      { stT with current_location := newLoc,
                 entries := stT.entries ++ [e],
                 current_block_entries := stT.current_block_entries ++ [e] }
    | none =>
      let lt1 := suffixCleanupFirst locSuffixes remaining.data
      let newLoc :=
        if hasInfixL lt1 " - ".data then
          match findSubIdx lt1 " - ".data with
          | some i => mkLocOpt (stripL (lt1.take i))
          | none => none
        else mkLocOpt (stripL lt1)
      { stT with current_location := newLoc }
  | none =>
    match extractPatientFromLine line with
    | some pi =>
      let ln := cleanNamePunctuation pi.last_name
      let fn := cleanNamePunctuation pi.first_name
      let e : PEntry :=
        ⟨(match st.current_type with
          | some t => if t = "" then "Unknown" else t
          | none => "Unknown"),
         falsyLoc st.current_location,
         ln ++ ", " ++ fn, pi.resident_id, normalizeDate pi.date_str⟩
      { st with entries := st.entries ++ [e],
                current_block_entries := st.current_block_entries ++ [e] }
    | none => st

/-- The `Total:` checkpoint part of one loop iteration: record the
subtotal for the open block and reset the block state. -/
def applyTotal (st1 : PState) (line : String) : PState :=
  match totalMatch line with
  | some n =>
    let st2 :=
      match st1.current_type with
      | some t =>
        if t = "" then st1
        else { st1 with subtotals := st1.subtotals ++
                 [SubT.mk t (falsyLoc st1.current_location) n "detail"] }
      | none => st1
    { st2 with current_type := none, current_location := none,
               current_block_entries := [] }
  | none => st1

/-- One iteration of the section loop of `parse_section_with_python`:
skip blank/label lines, handle the `Unknown ` special case (which
`continue`s past the checkpoint test), open facility blocks, emit
continuation entries, and consume `Total:` checkpoints. -/
def stepLine (sectionName : String) (st : PState) (raw : String) : PState :=
  let line := stripS raw
  if line = "" ∨ line = sectionName ∨
      (hasInfixS line "Type" ∧ hasInfixS line "Location" ∧ hasInfixS line "Resident") then st
  else
    let unknownStep : Option PState :=
      if startsWithS line "Unknown " then
        match extractPatientFromLine (stripS (String.mk (line.data.drop 8))) with
        | some pi =>
          let ln := cleanNamePunctuation pi.last_name
          let fn := cleanNamePunctuation pi.first_name
          let e : PEntry := ⟨"Unknown", none, ln ++ ", " ++ fn, pi.resident_id,
                             normalizeDate pi.date_str⟩
          some { st with entries := st.entries ++ [e],
                         current_block_entries := st.current_block_entries ++ [e],
                         current_type := some "Unknown",
                         current_location := none }
        | none => none
      else none
    match unknownStep with
    | some st2 => st2
    | none => applyTotal (applyFacilityOrPatient st line) line

/-- One parsed section. -/
structure SectionR where
  sname : String
  entries : List PEntry
  subtotals : List SubT
  total : Option Nat
deriving Repr, DecidableEq

/-- Run the section loop over the section's line slice. -/
def parseSectionLines (sectionLines : List String) (sectionName : String) : SectionR :=
  let st := sectionLines.foldl (stepLine sectionName) initPState
  ⟨sectionName, st.entries, st.subtotals, some st.entries.length⟩

/-- `parse_section_with_python` including the missing-marker and slicing
behavior on the full line list. -/
def parseSectionWithPython (lines : List String) (sectionStart : Option Nat)
    (sectionEnd : Option Nat) (sectionName : String) : SectionR :=
  match sectionStart with
  | none => ⟨sectionName, [], [], none⟩
  | some a =>
    let sls :=
      match sectionEnd with
      | some b => (lines.drop a).take (b - a)
      | none => lines.drop a
    parseSectionLines sls sectionName

/-!  Metadata Extractor (`extract_metadata_from_text`). -/

/-- Report-level metadata.  All fields optional; the source dict also
carries `page` fields that no branch ever assigns, so they are omitted
here (they stay unset for every input). -/
structure Metadata where
  facility : Option String
  generated_date : Option String
  generated_time_et : Option String
  user : Option String
  adm_from : Option String
  adm_to : Option String
  dis_from : Option String
  dis_to : Option String
deriving Repr, DecidableEq

def initMetadata : Metadata := ⟨none, none, none, none, none, none, none, none⟩

/-- Try a scanner at every start position, leftmost match first
(`re.search`). -/
def searchPos {α : Type} (f : List Char → Option α) : List Char → Option α
  | [] => f []
  | c :: t =>
    match f (c :: t) with
    | some a => some a
    | none => searchPos f t

/-- `Date:\s*(\w+)\s+(\d+),\s+(\d{4})` anchored at the current position. -/
def dateSearchAt (cs : List Char) : Option (String × String × String) :=
  match litL "Date:".data cs with
  | none => none
  | some r0 =>
    let r1 := r0.dropWhile pySpace
    let (w, r2) := spanP isWordC r1
    if w.isEmpty then none else
    let ws := r2.takeWhile pySpace
    if ws.isEmpty then none else
    let (d, r4) := spanP isDigitC (r2.dropWhile pySpace)
    if d.isEmpty then none else
    match r4 with
    | ',' :: r5 =>
      let ws2 := r5.takeWhile pySpace
      if ws2.isEmpty then none else
      let r6 := r5.dropWhile pySpace
      let y := r6.take 4
      if y.length = 4 && y.all isDigitC then
        some (String.mk w, String.mk d, String.mk y)
      else none
    | _ => none

/-- `Time:\s*(\d{2}:\d{2}:\d{2})` anchored at the current position. -/
def timeSearchAt (cs : List Char) : Option String :=
  match litL "Time:".data cs with
  | none => none
  | some r0 =>
    match r0.dropWhile pySpace with
    | a :: b :: ':' :: c :: d :: ':' :: e :: f :: _ =>
      if isDigitC a && isDigitC b && isDigitC c && isDigitC d &&
          isDigitC e && isDigitC f then
        some (String.mk [a, b, ':', c, d, ':', e, f])
      else none
    | _ => none

/-- Capture `\d{1,2}/\d{1,2}/\d{4}` with the remainder. -/
def dateCaptureL (s : List Char) : Option (String × List Char) :=
  let (d1, r1) := spanP isDigitC s
  if d1.isEmpty || 2 < d1.length then none else
  match r1 with
  | '/' :: r2 =>
    let (d2, r3) := spanP isDigitC r2
    if d2.isEmpty || 2 < d2.length then none else
    match r3 with
    | '/' :: r4 =>
      let (y, r5) := spanP isDigitC r4
      if y.length = 4 then some (String.mk (d1 ++ '/' :: d2 ++ '/' :: y), r5)
      else none
    | _ => none
  | _ => none

/-- `<kw>\s+(<date>)\s+To\s+(<date>)` anchored at the current position. -/
def rangeSearchAt (kw : String) (cs : List Char) : Option (String × String) :=
  match litL kw.data cs with
  | none => none
  | some r0 =>
    let ws := r0.takeWhile pySpace
    if ws.isEmpty then none else
    match dateCaptureL (r0.dropWhile pySpace) with
    | none => none
    | some (dt1, r1) =>
      let ws1 := r1.takeWhile pySpace
      if ws1.isEmpty then none else
      match litL "To".data (r1.dropWhile pySpace) with
      | none => none
      | some r2 =>
        let ws2 := r2.takeWhile pySpace
        if ws2.isEmpty then none else
        match dateCaptureL (r2.dropWhile pySpace) with
        | none => none
        | some (dt2, _) => some (dt1, dt2)

/-- `User:\s*(.+)` anchored at the current position; the caller strips the
capture, so an all-space tail yields the empty user string. -/
def userSearchAt (cs : List Char) : Option String :=
  match litL "User:".data cs with
  | none => none
  | some r0 =>
    if r0.isEmpty then none
    else some (String.mk (stripL (r0.dropWhile pySpace)))

/-- Per-line step of `extract_metadata_from_text`. -/
def stepMeta (m : Metadata) (l : String) : Metadata :=
  let s := stripS l
  if hasInfixS s "Medilodge" then
    { m with facility := some "Medilodge at the Shore" }
  else if startsWithS s "Date:" then
    match searchPos dateSearchAt s.data with
    | some (mo, d, y) =>
      -- the source builds the date as f"{year}-{month}-{day}" with the
      -- month word unconverted ("Will need proper month conversion")
      { m with generated_date := some (y ++ "-" ++ mo ++ "-" ++ d) }
    | none => m
  else if startsWithS s "Time:" then
    match searchPos timeSearchAt s.data with
    | some t => { m with generated_time_et := some t }
    | none => m
  else if hasInfixS s "Admissions" ∧ hasInfixS s "Discharges" then
    let m1 :=
      match searchPos (rangeSearchAt "Admissions") s.data with
      | some (f, t) => { m with adm_from := some f, adm_to := some t }
      | none => m
    let m2 :=
      match searchPos (rangeSearchAt "Discharges") s.data with
      | some (f, t) => { m1 with dis_from := some f, dis_to := some t }
      | none => m1
    match searchPos userSearchAt s.data with
    | some u => { m2 with user := some u }
    | none => m2
  else m

/-- `extract_metadata_from_text`. -/
def extractMetadataFromText (metadataText : String) : Metadata :=
  (splitLinesS metadataText).foldl stepMeta initMetadata

/-!  `parse_with_python`: section splitting plus the combined result. -/

/-- The combined parse result; `validation` is created with empty `notes`
and `warnings` lists and nothing is ever appended to them. -/
structure ParseResult where
  report_metadata : Metadata
  sections : List SectionR
  admissions_total : Option Nat
  discharges_total : Option Nat
  notes : List String
  warnings : List String
deriving Repr, DecidableEq

def parseWithPython (text metadataText : String) : ParseResult :=
  let lines := splitLinesS text
  let aStart := lines.findIdx? (fun l => stripS l = "Admissions")
  let dStart := lines.findIdx? (fun l => stripS l = "Discharges")
  let metadata := extractMetadataFromText metadataText
  let admissions := parseSectionWithPython lines aStart dStart "Admissions"
  let discharges := parseSectionWithPython lines dStart none "Discharges"
  { report_metadata := metadata,
    sections := [admissions, discharges],
    admissions_total := admissions.total,
    discharges_total := discharges.total,
    notes := [],
    warnings := [] }

/-- Claim C4 (code bug): on the block-header line
`"Acute care hospital Blodgett Brown, Lawrence (202720) 07/22/2025"`
followed by the continuation line
`"Hernandez, Maria (202787) 08/21/2025"`, the parser emits two entries
with type `"Acute care hospital"`, but the location is `None` on both and
the first resident's last name absorbs `"Blodgett"` — the in-file
documentation (and the spec) require `from_location = "Blodgett"` with
last name `"Brown"`. -/
theorem parseSection_blodgett_continuation :
    (parseSectionLines
        ["Acute care hospital Blodgett Brown, Lawrence (202720) 07/22/2025",
         "Hernandez, Maria (202787) 08/21/2025"] "Admissions").entries =
      [⟨"Acute care hospital", none, "Blodgett Brown, Lawrence", "202720", "2025-07-22"⟩,
       ⟨"Acute care hospital", none, "Hernandez, Maria", "202787", "2025-08-21"⟩] := by
  rfl

/-- Counterexample to claim C3: a block of nine resident lines closed by
`"Total: 7"` parses with all nine entries and a recorded subtotal of 7,
but the result's `validation.warnings` list is empty — no mismatch warning
is recorded anywhere (the comparison in the source is a `pass`). -/
theorem parseWithPython_mismatch_no_warning :
    (parseWithPython
        "Admissions\nNursing home SOMEPLACE\nAlpha, Ann (10001) 1/1/2025\nBravo, Ben (10002) 1/2/2025\nClark, Cam (10003) 1/3/2025\nDelta, Dan (10004) 1/4/2025\nEchos, Eva (10005) 1/5/2025\nFox, Fay (10006) 1/6/2025\nGray, Gus (10007) 1/7/2025\nHill, Hal (10008) 1/8/2025\nIrwin, Ivy (10009) 1/9/2025\nTotal: 7"
        "").warnings = [] ∧
    (parseWithPython
        "Admissions\nNursing home SOMEPLACE\nAlpha, Ann (10001) 1/1/2025\nBravo, Ben (10002) 1/2/2025\nClark, Cam (10003) 1/3/2025\nDelta, Dan (10004) 1/4/2025\nEchos, Eva (10005) 1/5/2025\nFox, Fay (10006) 1/6/2025\nGray, Gus (10007) 1/7/2025\nHill, Hal (10008) 1/8/2025\nIrwin, Ivy (10009) 1/9/2025\nTotal: 7"
        "").sections.map (fun s => (s.sname, s.entries.length)) =
      [("Admissions", 9), ("Discharges", 0)] ∧
    (parseWithPython
        "Admissions\nNursing home SOMEPLACE\nAlpha, Ann (10001) 1/1/2025\nBravo, Ben (10002) 1/2/2025\nClark, Cam (10003) 1/3/2025\nDelta, Dan (10004) 1/4/2025\nEchos, Eva (10005) 1/5/2025\nFox, Fay (10006) 1/6/2025\nGray, Gus (10007) 1/7/2025\nHill, Hal (10008) 1/8/2025\nIrwin, Ivy (10009) 1/9/2025\nTotal: 7"
        "").sections.map SectionR.subtotals =
      [[⟨"Nursing home", some "SOMEPLACE", 7, "detail"⟩], []] :=
  ⟨rfl, rfl, rfl⟩

/-- The facility/continuation stage only ever appends to the entry list. -/
theorem applyFacilityOrPatient_entries (st : PState) (line : String) :
    ∃ new, (applyFacilityOrPatient st line).entries = st.entries ++ new := by
  unfold applyFacilityOrPatient
  dsimp only
  split
  · split
    · exact ⟨_, rfl⟩
    · exact ⟨[], by simp⟩
  · split
    · exact ⟨_, rfl⟩
    · exact ⟨[], by simp⟩

/-- The checkpoint stage never touches the entry list. -/
theorem applyTotal_entries (st1 : PState) (line : String) :
    (applyTotal st1 line).entries = st1.entries := by
  unfold applyTotal
  dsimp only
  split
  · split
    · split <;> rfl
    · rfl
  · rfl

/-- Claim C3 (amended): a `Total: N` mismatch is silently tolerated — no
warning is recorded (there is no warning channel written by the parser),
and no entry is corrected or dropped: the section loop only ever appends
to the entry list, and the nine-entry block closed by `"Total: 7"` still
contributes all nine entries, with the subtotal recording the stated 7. -/
theorem stepLine_entries_preserved :
    (∀ (name : String) (st : PState) (l : String),
        ∃ new, (stepLine name st l).entries = st.entries ++ new) ∧
    (parseSectionLines
        ["Nursing home SOMEPLACE", "Alpha, Ann (10001) 1/1/2025",
         "Bravo, Ben (10002) 1/2/2025", "Clark, Cam (10003) 1/3/2025",
         "Delta, Dan (10004) 1/4/2025", "Echos, Eva (10005) 1/5/2025",
         "Fox, Fay (10006) 1/6/2025", "Gray, Gus (10007) 1/7/2025",
         "Hill, Hal (10008) 1/8/2025", "Irwin, Ivy (10009) 1/9/2025",
         "Total: 7"] "Admissions").entries.length = 9 ∧
    (parseSectionLines
        ["Nursing home SOMEPLACE", "Alpha, Ann (10001) 1/1/2025",
         "Bravo, Ben (10002) 1/2/2025", "Clark, Cam (10003) 1/3/2025",
         "Delta, Dan (10004) 1/4/2025", "Echos, Eva (10005) 1/5/2025",
         "Fox, Fay (10006) 1/6/2025", "Gray, Gus (10007) 1/7/2025",
         "Hill, Hal (10008) 1/8/2025", "Irwin, Ivy (10009) 1/9/2025",
         "Total: 7"] "Admissions").subtotals =
      [⟨"Nursing home", some "SOMEPLACE", 7, "detail"⟩] := by
  refine ⟨?_, rfl, rfl⟩
  intro name st l
  unfold stepLine
  dsimp only
  split
  · exact ⟨[], by simp⟩
  · by_cases hu : startsWithS (stripS l) "Unknown " = true
    · rw [if_pos hu]
      cases hx : extractPatientFromLine (stripS (String.mk (List.drop 8 (stripS l).data))) with
      | some pi => exact ⟨_, rfl⟩
      | none =>
        obtain ⟨n1, e1⟩ := applyFacilityOrPatient_entries st (stripS l)
        refine ⟨n1, ?_⟩
        show (applyTotal (applyFacilityOrPatient st (stripS l)) (stripS l)).entries = _
        rw [applyTotal_entries, e1]
    · rw [if_neg hu]
      obtain ⟨n1, e1⟩ := applyFacilityOrPatient_entries st (stripS l)
      refine ⟨n1, ?_⟩
      show (applyTotal (applyFacilityOrPatient st (stripS l)) (stripS l)).entries = _
      rw [applyTotal_entries, e1]

/-- Claim C6 (code bug): for the prologue line `"Date: July 9, 2025"` the
metadata extractor stores `generated_date = "2025-July-9"` — the month
word is kept verbatim instead of being converted to a zero-padded numeric
month, so the value is not the ISO date `"2025-07-09"` the spec requires
(the source comments `Will need proper month conversion`); fields whose
patterns are absent stay unset. -/
theorem extractMetadata_generated_date_not_iso :
    (extractMetadataFromText "Date: July 9, 2025").generated_date = some "2025-July-9" ∧
    (extractMetadataFromText "Date: July 9, 2025").generated_date ≠ some "2025-07-09" ∧
    (extractMetadataFromText "Date: July 9, 2025").facility = none ∧
    (extractMetadataFromText "Date: July 9, 2025").user = none ∧
    (extractMetadataFromText "Date: July 9, 2025").generated_time_et = none :=
  ⟨rfl, by decide, rfl, rfl, rfl⟩

/-- Claim C10: a resident line encountered while no facility-type block is
open (state `{None, None, ...}`, e.g. before any block header or right
after a `Total:` checkpoint) is not dropped: it is emitted as an entry
with type `"Unknown"` and location `None`. -/
theorem stepLine_no_block_emits_unknown (name : String) (st : PState)
    (raw : String) (pi : PatientInfo)
    (hty : st.current_type = none) (hloc : st.current_location = none)
    (h1 : ¬ (stripS raw = "" ∨ stripS raw = name ∨
        (hasInfixS (stripS raw) "Type" ∧ hasInfixS (stripS raw) "Location" ∧
          hasInfixS (stripS raw) "Resident")))
    (h2 : startsWithS (stripS raw) "Unknown " = false)
    (h3 : facilityTypes.find? (fun ft => startsWithS (stripS raw) ft) = none)
    (h4 : extractPatientFromLine (stripS raw) = some pi) :
    (stepLine name st raw).entries = st.entries ++
      [⟨"Unknown", none,
        cleanNamePunctuation pi.last_name ++ ", " ++ cleanNamePunctuation pi.first_name,
        pi.resident_id, normalizeDate pi.date_str⟩] := by
  unfold stepLine
  dsimp only
  rw [if_neg h1]
  have hu : ¬ (startsWithS (stripS raw) "Unknown " = true) := by simp [h2]
  rw [if_neg hu]
  show (applyTotal (applyFacilityOrPatient st (stripS raw)) (stripS raw)).entries = _
  rw [applyTotal_entries]
  unfold applyFacilityOrPatient
  rw [h3, h4]
  simp only [hty, hloc, falsyLoc]

/-- Witness for claim C10: the standalone resident line
`"Davis, Carol (20003) 3/4/2025"` in the empty initial state. -/
theorem stepLine_no_block_emits_unknown_witness :
    (stepLine "Admissions" initPState "Davis, Carol (20003) 3/4/2025").entries =
      initPState.entries ++
        [⟨"Unknown", none, "Davis, Carol", "20003", "2025-03-04"⟩] := by
  have h := stepLine_no_block_emits_unknown "Admissions" initPState
    "Davis, Carol (20003) 3/4/2025"
    ⟨"Davis", "Carol", "20003", "3/4/2025", "Davis"⟩
    rfl rfl (by decide) (by decide) (by decide) (by decide)
  simpa using h

/-!  Stable sorting (`list.sort` with a key): insertion placing each new
element after existing key-equal elements reproduces Python's stable sort
exactly (the stable sorted permutation is unique). -/

def insertAfterEq {α : Type} (le : α → α → Bool) (a : α) : List α → List α
  | [] => [a]
  | b :: t => if le b a then b :: insertAfterEq le a t else a :: b :: t

def pySortBy {α : Type} (le : α → α → Bool) (l : List α) : List α :=
  l.foldl (fun acc a => insertAfterEq le a acc) []

theorem insertAfterEq_perm {α : Type} (le : α → α → Bool) (a : α) (l : List α) :
    (insertAfterEq le a l).Perm (a :: l) := by
  induction l with
  | nil => rfl
  | cons b t ih =>
    by_cases h : le b a = true
    · simp only [insertAfterEq, if_pos h]
      exact (ih.cons b).trans (List.Perm.swap a b t)
    · simp only [insertAfterEq, if_neg h]
      exact List.Perm.refl _

theorem pySortBy_perm {α : Type} (le : α → α → Bool) (l : List α) :
    (pySortBy le l).Perm l := by
  suffices h : ∀ acc : List α,
      (l.foldl (fun acc a => insertAfterEq le a acc) acc).Perm (acc ++ l) by
    simpa using h []
  induction l with
  | nil => intro acc; simp
  | cons a t ih =>
    intro acc
    simp only [List.foldl_cons]
    refine (ih (insertAfterEq le a acc)).trans ?_
    have h1 : (insertAfterEq le a acc ++ t).Perm ((a :: acc) ++ t) :=
      (insertAfterEq_perm le a acc).append_right t
    refine h1.trans ?_
    simpa using List.perm_middle.symm

theorem mem_pySortBy {α : Type} {le : α → α → Bool} {x : α} {l : List α} :
    x ∈ pySortBy le l ↔ x ∈ l :=
  (pySortBy_perm le l).mem_iff

theorem mem_insertAfterEq {α : Type} {le : α → α → Bool} {x a : α} {l : List α} :
    x ∈ insertAfterEq le a l ↔ x = a ∨ x ∈ l := by
  rw [(insertAfterEq_perm le a l).mem_iff, List.mem_cons]

theorem insertAfterEq_pairwise {α : Type} {le : α → α → Bool}
    (htrans : ∀ a b c, le a b = true → le b c = true → le a c = true)
    (htotal : ∀ a b, le a b = true ∨ le b a = true)
    (a : α) {l : List α} (hl : l.Pairwise (fun x y => le x y = true)) :
    (insertAfterEq le a l).Pairwise (fun x y => le x y = true) := by
  induction l with
  | nil => simp [insertAfterEq]
  | cons b t ih =>
    rcases List.pairwise_cons.mp hl with ⟨hb, ht⟩
    by_cases h : le b a = true
    · simp only [insertAfterEq, if_pos h]
      refine List.pairwise_cons.mpr ⟨?_, ih ht⟩
      intro x hx
      rcases mem_insertAfterEq.mp hx with rfl | hx
      · exact h
      · exact hb x hx
    · simp only [insertAfterEq, if_neg h]
      have hab : le a b = true := (htotal a b).resolve_right h
      refine List.pairwise_cons.mpr ⟨?_, hl⟩
      intro x hx
      rcases List.mem_cons.mp hx with rfl | hx
      · exact hab
      · exact htrans a b x hab (hb x hx)

theorem pySortBy_pairwise {α : Type} {le : α → α → Bool}
    (htrans : ∀ a b c, le a b = true → le b c = true → le a c = true)
    (htotal : ∀ a b, le a b = true ∨ le b a = true) (l : List α) :
    (pySortBy le l).Pairwise (fun x y => le x y = true) := by
  suffices h : ∀ acc : List α, acc.Pairwise (fun x y => le x y = true) →
      (l.foldl (fun acc a => insertAfterEq le a acc) acc).Pairwise
        (fun x y => le x y = true) by
    exact h [] (by simp)
  induction l with
  | nil => intro acc hacc; simpa using hacc
  | cons a t ih =>
    intro acc hacc
    simp only [List.foldl_cons]
    exact ih _ (insertAfterEq_pairwise htrans htotal a hacc)

theorem leStrL_cons_iff {x y : Char} {xs ys : List Char} :
    leStrL (x :: xs) (y :: ys) = true ↔
      x.toNat < y.toNat ∨ (x.toNat = y.toNat ∧ leStrL xs ys = true) := by
  simp only [leStrL]
  split_ifs with h1 h2
  · simp [h1]
  · simp [h1, h2]
  · simp [h1, h2]

theorem leStrL_total : ∀ a b : List Char, leStrL a b = true ∨ leStrL b a = true := by
  intro a
  induction a with
  | nil => intro b; left; rfl
  | cons x xs ih =>
    intro b
    cases b with
    | nil => right; rfl
    | cons y ys =>
      rcases Nat.lt_trichotomy x.toNat y.toNat with h | h | h
      · exact Or.inl (leStrL_cons_iff.mpr (Or.inl h))
      · rcases ih ys with h4 | h4
        · exact Or.inl (leStrL_cons_iff.mpr (Or.inr ⟨h, h4⟩))
        · exact Or.inr (leStrL_cons_iff.mpr (Or.inr ⟨h.symm, h4⟩))
      · exact Or.inr (leStrL_cons_iff.mpr (Or.inl h))

theorem leStrL_trans : ∀ a b c : List Char,
    leStrL a b = true → leStrL b c = true → leStrL a c = true := by
  intro a
  induction a with
  | nil => intro b c _ _; rfl
  | cons x xs ih =>
    intro b c hab hbc
    cases b with
    | nil => simp [leStrL] at hab
    | cons y ys =>
      cases c with
      | nil => simp [leStrL] at hbc
      | cons z zs =>
        apply leStrL_cons_iff.mpr
        rcases leStrL_cons_iff.mp hab with h1 | ⟨h1, h1b⟩ <;>
          rcases leStrL_cons_iff.mp hbc with h2 | ⟨h2, h2b⟩
        · exact Or.inl (by omega)
        · exact Or.inl (by omega)
        · exact Or.inl (by omega)
        · exact Or.inr ⟨by omega, ih ys zs h1b h2b⟩

/-!  Patient Grouper (`parse_name`, `create_patient_grouped_json`). -/

/-- Python `str.strip(chars)`. -/
def stripSetL (cs l : List Char) : List Char :=
  ((l.dropWhile (cs.contains ·)).reverse.dropWhile (cs.contains ·)).reverse

/-- `parse_name`: split on commas, return `(first_name, last_name)`. -/
def parse_name (full_name : String) : String × String :=
  if full_name = "" then ("", "") else
  let fn := stripSetL ['"'] full_name.data
  let parts := (splitSepL ',' fn).map stripL
  match parts with
  | p0 :: p1 :: _ =>
    (cleanNamePunctuation (String.mk p1), cleanNamePunctuation (String.mk p0))
  | [p0] => ("", cleanNamePunctuation (String.mk p0))
  | [] => ("", "")

/-- One grouped admission sub-entry. -/
structure AdmEntry where
  effective_date : String
  from_type : String
  from_location : Option String
deriving Repr, DecidableEq

/-- One grouped discharge sub-entry. -/
structure DisEntry where
  effective_date : String
  to_type : String
  to_location : Option String
deriving Repr, DecidableEq

/-- One PatientRecord of the grouped output. -/
structure PatientRec where
  resident_id : String
  first_name : String
  last_name : String
  full_name : String
  admissions : List AdmEntry
  discharges : List DisEntry
  total_admissions : Nat
  total_discharges : Nat
deriving Repr, DecidableEq

/-- The defaultdict default. -/
def blankPatient : PatientRec := ⟨"", "", "", "", [], [], 0, 0⟩

/-- `patients[resident_id]` access-and-mutate: an existing key's record is
updated in place; a fresh key is appended at the end, as defaultdict and
dict insertion order do. -/
def upsertWith (rid : String) (upd : PatientRec → PatientRec)
    (ps : List (String × PatientRec)) : List (String × PatientRec) :=
  if (ps.map Prod.fst).contains rid then
    ps.map (fun kv => if kv.1 = rid then (kv.1, upd kv.2) else kv)
  else ps ++ [(rid, upd blankPatient)]

/-- Upsert one admission entry into the ordered patient map. -/
def upsertAdm (ps : List (String × PatientRec)) (e : PEntry) :
    List (String × PatientRec) :=
  let nm := parse_name e.resident_name
  upsertWith e.resident_id
    (fun p =>
      { p with resident_id := e.resident_id, first_name := nm.1, last_name := nm.2,
               full_name := e.resident_name,
               admissions := p.admissions ++ [⟨e.effective_date, e.etype, e.elocation⟩],
               total_admissions := p.total_admissions + 1 }) ps

/-- Upsert one discharge entry into the ordered patient map. -/
def upsertDis (ps : List (String × PatientRec)) (e : PEntry) :
    List (String × PatientRec) :=
  let nm := parse_name e.resident_name
  upsertWith e.resident_id
    (fun p =>
      { p with resident_id := e.resident_id, first_name := nm.1, last_name := nm.2,
               full_name := e.resident_name,
               discharges := p.discharges ++ [⟨e.effective_date, e.etype, e.elocation⟩],
               total_discharges := p.total_discharges + 1 }) ps

/-- The two grouping passes of `create_patient_grouped_json` (admissions
sections first, then discharges sections). -/
def createPatientsFromSections (sections : List SectionR) :
    List (String × PatientRec) :=
  let afterAdm := sections.foldl
    (fun acc sec =>
      if sec.sname = "Admissions" then sec.entries.foldl upsertAdm acc else acc) []
  sections.foldl
    (fun acc sec =>
      if sec.sname = "Discharges" then sec.entries.foldl upsertDis acc else acc)
    afterAdm

/-- Sort one patient's lists by the raw `effective_date` string
(`patient['admissions'].sort(key=lambda x: x['effective_date'])`). -/
def sortPatientLists (p : PatientRec) : PatientRec :=
  { p with
    admissions := pySortBy (fun a b => leStrS a.effective_date b.effective_date) p.admissions,
    discharges := pySortBy (fun a b => leStrS a.effective_date b.effective_date) p.discharges }

/-- `create_patient_grouped_json`, restricted to the patient map it
builds (the wrapper metadata and summary counters are not modelled):
group by resident id, sort each patient's lists by date string, and sort
the map by resident id. -/
def createPatientGroupedJson (sections : List SectionR) :
    List (String × PatientRec) :=
  let patients := (createPatientsFromSections sections).map
    (fun kv => (kv.1, sortPatientLists kv.2))
  pySortBy (fun a b => leStrS a.1 b.1) patients

/-!  Cycle Reconstructor (`parse_date`, `find_subsequent_cycles`) and
Tabular Emitter (`create_cycles_csv`). -/

/-- Days per month as `datetime` validates them. -/
def daysInMonth (y m : Nat) : Nat :=
  if m = 2 then (if (y % 4 = 0 ∧ y % 100 ≠ 0) ∨ y % 400 = 0 then 29 else 28)
  else if m = 4 ∨ m = 6 ∨ m = 9 ∨ m = 11 then 30 else 31

/-- `parse_date`: `datetime.strptime(s, '%Y-%m-%d')`, `None` on failure;
a valid date is encoded as `y*10000 + m*100 + d`, which is
order-isomorphic to `datetime` on valid dates. -/
def parseDate (s : String) : Option Nat :=
  match splitSepL '-' s.data with
  | [ys, ms, ds] =>
    if ys ≠ [] ∧ ys.length ≤ 4 ∧ ys.all isDigitC ∧
        ms ≠ [] ∧ ms.length ≤ 2 ∧ ms.all isDigitC ∧
        ds ≠ [] ∧ ds.length ≤ 2 ∧ ds.all isDigitC then
      let y := natOfDigits ys
      let m := natOfDigits ms
      let d := natOfDigits ds
      if 1 ≤ y ∧ 1 ≤ m ∧ m ≤ 12 ∧ 1 ≤ d ∧ d ≤ daysInMonth y m then
        some (y * 10000 + m * 100 + d)
      else none
    else none
  | _ => none

/-- Sort key of `find_subsequent_cycles`:
`parse_date(x.get('effective_date', '')) or datetime.min`. -/
def dateKeyNat (s : String) : Nat :=
  (parseDate s).getD 10101

/-- The two-pointer sweep of `find_subsequent_cycles`, fuelled by the
total length (each step consumes at least one element). -/
def cyclesGo : Nat → List AdmEntry → List DisEntry → List (AdmEntry × DisEntry)
  | 0, _, _ => []
  | _ + 1, [], _ => []
  | _ + 1, _ :: _, [] => []
  | fuel + 1, a :: as, d :: ds =>
    match parseDate a.effective_date, parseDate d.effective_date with
    | some ad, some dd =>
      if ad ≤ dd then (a, d) :: cyclesGo fuel as ds
      else cyclesGo fuel (a :: as) ds
    | none, some _ => cyclesGo fuel as (d :: ds)
    | some _, none => cyclesGo fuel (a :: as) ds
    | none, none => cyclesGo fuel as ds

/-- `find_subsequent_cycles`. -/
def findSubsequentCycles (admissions : List AdmEntry) (discharges : List DisEntry) :
    List (AdmEntry × DisEntry) :=
  let sortedA := pySortBy
    (fun a b => decide (dateKeyNat a.effective_date ≤ dateKeyNat b.effective_date)) admissions
  let sortedD := pySortBy
    (fun a b => decide (dateKeyNat a.effective_date ≤ dateKeyNat b.effective_date)) discharges
  if sortedA = [] ∨ sortedD = [] then []
  else cyclesGo (sortedA.length + sortedD.length) sortedA sortedD

/-- One output row of `create_cycles_csv`. -/
structure Row where
  first_name : String
  last_name : String
  resident_id : String
  admission_date : String
  discharge_date : String
  from_location : Option String
  to_location : Option String
  from_type : String
  to_type : String
deriving Repr, DecidableEq

def cycleRow (pid fn ln : String) (a : AdmEntry) (d : DisEntry) : Row :=
  ⟨fn, ln, pid, a.effective_date, d.effective_date, a.from_location,
   d.to_location, a.from_type, d.to_type⟩

def admRow (pid fn ln : String) (a : AdmEntry) : Row :=
  ⟨fn, ln, pid, a.effective_date, "", a.from_location, some "", a.from_type, ""⟩

def disRow (pid fn ln : String) (d : DisEntry) : Row :=
  ⟨fn, ln, pid, "", d.effective_date, some "", d.to_location, "", d.to_type⟩

/-- Per-patient row generation of `create_cycles_csv`: cycle rows when
the sweep paired anything; otherwise partial rows only when the patient
has entries on exactly one side. -/
def rowsForPatient (pid : String) (p : PatientRec) : List Row :=
  let cycles := findSubsequentCycles p.admissions p.discharges
  if cycles ≠ [] then
    cycles.map (fun c => cycleRow pid p.first_name p.last_name c.1 c.2)
  else if p.admissions ≠ [] ∧ p.discharges = [] then
    p.admissions.map (admRow pid p.first_name p.last_name)
  else if p.discharges ≠ [] ∧ p.admissions = [] then
    p.discharges.map (disRow pid p.first_name p.last_name)
  else []

/-- The final row sort key:
`(last_name, first_name, admission_date or '9999-12-31')`. -/
def rowLe (r1 r2 : Row) : Bool :=
  let a1 := if r1.admission_date = "" then "9999-12-31" else r1.admission_date
  let a2 := if r2.admission_date = "" then "9999-12-31" else r2.admission_date
  if r1.last_name ≠ r2.last_name then leStrS r1.last_name r2.last_name
  else if r1.first_name ≠ r2.first_name then leStrS r1.first_name r2.first_name
  else leStrS a1 a2

/-- `create_cycles_csv`, restricted to the row list it writes. -/
def createCyclesRows (patients : List (String × PatientRec)) : List Row :=
  pySortBy rowLe ((patients.map (fun kv => rowsForPatient kv.1 kv.2)).flatten)

/-!  Key lemmas for the grouping map. -/

theorem upsertWith_keys (rid : String) (upd : PatientRec → PatientRec)
    (ps : List (String × PatientRec)) :
    (upsertWith rid upd ps).map Prod.fst = ps.map Prod.fst ∨
    (upsertWith rid upd ps).map Prod.fst = ps.map Prod.fst ++ [rid] := by
  unfold upsertWith
  split
  · left
    rw [List.map_map]
    apply List.map_congr_left
    intro kv _
    by_cases h : kv.1 = rid <;> simp [h]
  · right; simp

theorem upsertWith_rid (rid : String) (upd : PatientRec → PatientRec)
    (ps : List (String × PatientRec))
    (hupd : ∀ p, (upd p).resident_id = rid)
    (h : ∀ kv ∈ ps, (kv : String × PatientRec).2.resident_id = kv.1) :
    ∀ kv ∈ upsertWith rid upd ps, kv.2.resident_id = kv.1 := by
  unfold upsertWith
  split
  · intro kv hkv
    obtain ⟨kv0, hkv0, rfl⟩ := List.mem_map.mp hkv
    by_cases he : kv0.1 = rid
    · simp only [he, if_true]
      simpa [he] using hupd kv0.2
    · simp only [he, if_false]
      exact h kv0 hkv0
  · intro kv hkv
    rcases List.mem_append.mp hkv with hkv | hkv
    · exact h kv hkv
    · rcases List.mem_singleton.mp hkv with rfl
      exact hupd blankPatient

theorem upsertAdm_keys_sub (ps : List (String × PatientRec)) (e : PEntry) (k : String)
    (h : k ∈ (upsertAdm ps e).map Prod.fst) :
    k ∈ ps.map Prod.fst ∨ k = e.resident_id := by
  unfold upsertAdm at h
  rcases upsertWith_keys e.resident_id _ ps with he | he
  · rw [he] at h; exact Or.inl h
  · rw [he] at h
    rcases List.mem_append.mp h with h | h
    · exact Or.inl h
    · exact Or.inr (List.mem_singleton.mp h)

theorem upsertDis_keys_sub (ps : List (String × PatientRec)) (e : PEntry) (k : String)
    (h : k ∈ (upsertDis ps e).map Prod.fst) :
    k ∈ ps.map Prod.fst ∨ k = e.resident_id := by
  unfold upsertDis at h
  rcases upsertWith_keys e.resident_id _ ps with he | he
  · rw [he] at h; exact Or.inl h
  · rw [he] at h
    rcases List.mem_append.mp h with h | h
    · exact Or.inl h
    · exact Or.inr (List.mem_singleton.mp h)

theorem foldl_upsert_keys_sub (g : List (String × PatientRec) → PEntry → List (String × PatientRec))
    (hg : ∀ ps e k, k ∈ (g ps e).map Prod.fst → k ∈ ps.map Prod.fst ∨ k = e.resident_id)
    (entries : List PEntry) :
    ∀ (acc : List (String × PatientRec)) (k : String),
      k ∈ (entries.foldl g acc).map Prod.fst →
      k ∈ acc.map Prod.fst ∨ k ∈ entries.map PEntry.resident_id := by
  induction entries with
  | nil => intro acc k h; exact Or.inl h
  | cons e t ih =>
    intro acc k h
    rcases ih (g acc e) k h with h1 | h1
    · rcases hg acc e k h1 with h2 | h2
      · exact Or.inl h2
      · exact Or.inr (by simp [h2])
    · exact Or.inr (List.mem_cons_of_mem _ h1)

/-- All entry resident ids of a section list. -/
def allEntryIds (sections : List SectionR) : List String :=
  (sections.map SectionR.entries).flatten.map PEntry.resident_id

theorem foldl_sections_keys_sub
    (g : List (String × PatientRec) → PEntry → List (String × PatientRec))
    (hg : ∀ ps e k, k ∈ (g ps e).map Prod.fst → k ∈ ps.map Prod.fst ∨ k = e.resident_id)
    (name : String) (sections : List SectionR) :
    ∀ (acc : List (String × PatientRec)) (k : String),
      k ∈ ((sections.foldl
          (fun acc sec => if sec.sname = name then sec.entries.foldl g acc else acc)
          acc).map Prod.fst) →
      k ∈ acc.map Prod.fst ∨ k ∈ allEntryIds sections := by
  induction sections with
  | nil => intro acc k h; exact Or.inl h
  | cons sec t ih =>
    intro acc k h
    simp only [List.foldl_cons] at h
    rcases ih _ k h with h1 | h1
    · by_cases hn : sec.sname = name
      · rw [if_pos hn] at h1
        rcases foldl_upsert_keys_sub g hg sec.entries acc k h1 with h2 | h2
        · exact Or.inl h2
        · exact Or.inr (by
            unfold allEntryIds
            simp only [List.map_cons, List.flatten_cons, List.map_append, List.mem_append]
            exact Or.inl h2)
      · rw [if_neg hn] at h1
        exact Or.inl h1
    · exact Or.inr (by
        unfold allEntryIds at h1 ⊢
        simp only [List.map_cons, List.flatten_cons, List.map_append, List.mem_append]
        exact Or.inr h1)

theorem createPatientsFromSections_keys_sub (sections : List SectionR) (k : String)
    (h : k ∈ (createPatientsFromSections sections).map Prod.fst) :
    k ∈ allEntryIds sections := by
  unfold createPatientsFromSections at h
  rcases foldl_sections_keys_sub upsertDis upsertDis_keys_sub "Discharges" sections _ k h with h1 | h1
  · rcases foldl_sections_keys_sub upsertAdm upsertAdm_keys_sub "Admissions" sections _ k h1 with h2 | h2
    · simp at h2
    · exact h2
  · exact h1

theorem createPatientGroupedJson_keys_sub (sections : List SectionR) (k : String)
    (h : k ∈ (createPatientGroupedJson sections).map Prod.fst) :
    k ∈ allEntryIds sections := by
  unfold createPatientGroupedJson at h
  dsimp only at h
  have hperm := (pySortBy_perm (fun a b => leStrS a.1 b.1)
    ((createPatientsFromSections sections).map (fun kv => (kv.1, sortPatientLists kv.2)))).map Prod.fst
  rw [hperm.mem_iff] at h
  rw [List.map_map] at h
  apply createPatientsFromSections_keys_sub sections k
  simpa [Function.comp] using h

theorem foldl_upsert_rid (g : List (String × PatientRec) → PEntry → List (String × PatientRec))
    (hg : ∀ ps e, (∀ kv ∈ ps, (kv : String × PatientRec).2.resident_id = kv.1) →
      ∀ kv ∈ g ps e, (kv : String × PatientRec).2.resident_id = kv.1)
    (entries : List PEntry) :
    ∀ acc : List (String × PatientRec),
      (∀ kv ∈ acc, (kv : String × PatientRec).2.resident_id = kv.1) →
      ∀ kv ∈ entries.foldl g acc, (kv : String × PatientRec).2.resident_id = kv.1 := by
  induction entries with
  | nil => intro acc hacc; exact hacc
  | cons e t ih => intro acc hacc; exact ih (g acc e) (hg acc e hacc)

theorem upsertAdm_rid (ps : List (String × PatientRec)) (e : PEntry)
    (h : ∀ kv ∈ ps, (kv : String × PatientRec).2.resident_id = kv.1) :
    ∀ kv ∈ upsertAdm ps e, (kv : String × PatientRec).2.resident_id = kv.1 := by
  unfold upsertAdm
  exact upsertWith_rid e.resident_id _ ps (fun p => rfl) h

theorem upsertDis_rid (ps : List (String × PatientRec)) (e : PEntry)
    (h : ∀ kv ∈ ps, (kv : String × PatientRec).2.resident_id = kv.1) :
    ∀ kv ∈ upsertDis ps e, (kv : String × PatientRec).2.resident_id = kv.1 := by
  unfold upsertDis
  exact upsertWith_rid e.resident_id _ ps (fun p => rfl) h

theorem foldl_sections_rid
    (g : List (String × PatientRec) → PEntry → List (String × PatientRec))
    (hg : ∀ ps e, (∀ kv ∈ ps, (kv : String × PatientRec).2.resident_id = kv.1) →
      ∀ kv ∈ g ps e, (kv : String × PatientRec).2.resident_id = kv.1)
    (name : String) (sections : List SectionR) :
    ∀ acc : List (String × PatientRec),
      (∀ kv ∈ acc, (kv : String × PatientRec).2.resident_id = kv.1) →
      ∀ kv ∈ sections.foldl
          (fun acc sec => if sec.sname = name then sec.entries.foldl g acc else acc) acc,
        (kv : String × PatientRec).2.resident_id = kv.1 := by
  induction sections with
  | nil => intro acc hacc; exact hacc
  | cons sec t ih =>
    intro acc hacc
    simp only [List.foldl_cons]
    apply ih
    by_cases hn : sec.sname = name
    · rw [if_pos hn]
      exact foldl_upsert_rid g hg sec.entries acc hacc
    · rw [if_neg hn]
      exact hacc

theorem createPatientGroupedJson_rid (sections : List SectionR) :
    ∀ kv ∈ createPatientGroupedJson sections,
      (kv : String × PatientRec).2.resident_id = kv.1 := by
  intro kv hkv
  unfold createPatientGroupedJson at hkv
  dsimp only at hkv
  rw [mem_pySortBy] at hkv
  obtain ⟨kv0, hkv0, rfl⟩ := List.mem_map.mp hkv
  have h0 : ∀ kv ∈ createPatientsFromSections sections,
      (kv : String × PatientRec).2.resident_id = kv.1 := by
    unfold createPatientsFromSections
    apply foldl_sections_rid upsertDis upsertDis_rid "Discharges"
    apply foldl_sections_rid upsertAdm upsertAdm_rid "Admissions"
    intro kv hkv; simp at hkv
  simpa [sortPatientLists] using h0 kv0 hkv0

theorem rowsForPatient_rid (pid : String) (p : PatientRec) :
    ∀ r ∈ rowsForPatient pid p, r.resident_id = pid := by
  intro r hr
  unfold rowsForPatient at hr
  dsimp only at hr
  split at hr
  · obtain ⟨c, _, rfl⟩ := List.mem_map.mp hr; rfl
  · split at hr
    · obtain ⟨a, _, rfl⟩ := List.mem_map.mp hr; rfl
    · split at hr
      · obtain ⟨d, _, rfl⟩ := List.mem_map.mp hr; rfl
      · simp at hr

/-- Claim C2 (amended): the `resident_id` of every output row is the id of
some parsed entry (no id is invented), and every patient record in the
grouped map carries exactly its own key as `resident_id` (ids are never
merged); however, a parsed id may be absent from the rows, as the
counterexample shows. -/
theorem rows_ids_no_fabrication :
    (∀ (sections : List SectionR) (r : Row),
        r ∈ createCyclesRows (createPatientGroupedJson sections) →
        r.resident_id ∈ allEntryIds sections) ∧
    (∀ (sections : List SectionR) (kv : String × PatientRec),
        kv ∈ createPatientGroupedJson sections → kv.2.resident_id = kv.1) := by
  constructor
  · intro sections r hr
    unfold createCyclesRows at hr
    rw [mem_pySortBy] at hr
    rw [List.mem_flatten] at hr
    obtain ⟨rows, hrows, hrin⟩ := hr
    obtain ⟨kv, hkv, rfl⟩ := List.mem_map.mp hrows
    have h1 : r.resident_id = kv.1 := rowsForPatient_rid kv.1 kv.2 r hrin
    rw [h1]
    exact createPatientGroupedJson_keys_sub sections kv.1
      (List.mem_map.mpr ⟨kv, hkv, rfl⟩)
  · exact fun sections kv h => createPatientGroupedJson_rid sections kv h

/-- Counterexample to claim C2: a patient whose single admission postdates
their single discharge groups into a record with entries on both sides,
pairs into no cycle, and so contributes no output row at all — their
resident id appears in the parsed entries but in no emitted row. -/
theorem rows_ids_absent_counterexample :
    createCyclesRows (createPatientGroupedJson
        [⟨"Admissions", [⟨"Nursing home", none, "Quy, Bob", "40001", "2025-03-01"⟩], [], some 1⟩,
         ⟨"Discharges", [⟨"Funeral Home", none, "Quy, Bob", "40001", "2025-01-05"⟩], [], some 1⟩]) =
      [] ∧
    allEntryIds
        [⟨"Admissions", [⟨"Nursing home", none, "Quy, Bob", "40001", "2025-03-01"⟩], [], some 1⟩,
         ⟨"Discharges", [⟨"Funeral Home", none, "Quy, Bob", "40001", "2025-01-05"⟩], [], some 1⟩] =
      ["40001", "40001"] :=
  ⟨rfl, rfl⟩

/-- Witness for the amended claim C2 at a concrete document: the single
emitted row's resident id is a parsed entry id. -/
theorem rows_ids_no_fabrication_witness :
    (cycleRow "30001" "Amy" "Zed" ⟨"2025-01-01", "Nursing home", none⟩
        ⟨"2025-01-05", "Funeral Home", none⟩) ∈
      createCyclesRows (createPatientGroupedJson
        [⟨"Admissions", [⟨"Nursing home", none, "Zed, Amy", "30001", "2025-01-01"⟩], [], some 1⟩,
         ⟨"Discharges", [⟨"Funeral Home", none, "Zed, Amy", "30001", "2025-01-05"⟩], [], some 1⟩]) ∧
    (cycleRow "30001" "Amy" "Zed" ⟨"2025-01-01", "Nursing home", none⟩
        ⟨"2025-01-05", "Funeral Home", none⟩).resident_id ∈
      allEntryIds
        [⟨"Admissions", [⟨"Nursing home", none, "Zed, Amy", "30001", "2025-01-01"⟩], [], some 1⟩,
         ⟨"Discharges", [⟨"Funeral Home", none, "Zed, Amy", "30001", "2025-01-05"⟩], [], some 1⟩] :=
  ⟨by decide,
   rows_ids_no_fabrication.1 _ _ (by decide)⟩

theorem findSubsequentCycles_nil_right (adm : List AdmEntry) :
    findSubsequentCycles adm [] = [] := by
  unfold findSubsequentCycles
  dsimp only
  have h : pySortBy
      (fun a b => decide (dateKeyNat a.effective_date ≤ dateKeyNat b.effective_date))
      ([] : List DisEntry) = [] := rfl
  rw [if_pos (Or.inr h)]

theorem findSubsequentCycles_nil_left (dis : List DisEntry) :
    findSubsequentCycles [] dis = [] := by
  unfold findSubsequentCycles
  dsimp only
  have h : pySortBy
      (fun a b => decide (dateKeyNat a.effective_date ≤ dateKeyNat b.effective_date))
      ([] : List AdmEntry) = [] := rfl
  rw [if_pos (Or.inl h)]

/-- Claim C1 (amended): after the two-pointer sweep, remaining unmatched
entries become partial rows only when the patient has entries on exactly
one side: with no discharges every admission is emitted admission-only,
with no admissions every discharge is emitted discharge-only; when the
sweep paired at least one cycle, exactly the paired cycle rows are emitted
and remaining admissions/discharges are dropped; and when the sweep paired
nothing while both lists are non-empty, the patient contributes no rows. -/
theorem rowsForPatient_partial_rows (pid : String) (p : PatientRec) :
    (findSubsequentCycles p.admissions p.discharges ≠ [] →
      rowsForPatient pid p = (findSubsequentCycles p.admissions p.discharges).map
        (fun c => cycleRow pid p.first_name p.last_name c.1 c.2)) ∧
    (p.discharges = [] →
      rowsForPatient pid p = p.admissions.map (admRow pid p.first_name p.last_name)) ∧
    (p.admissions = [] →
      rowsForPatient pid p = p.discharges.map (disRow pid p.first_name p.last_name)) ∧
    (findSubsequentCycles p.admissions p.discharges = [] → p.admissions ≠ [] →
      p.discharges ≠ [] → rowsForPatient pid p = []) := by
  refine ⟨?_, ?_, ?_, ?_⟩
  · intro h
    unfold rowsForPatient
    rw [if_pos h]
  · intro h
    have hc : findSubsequentCycles p.admissions p.discharges = [] := by
      rw [h]; exact findSubsequentCycles_nil_right _
    unfold rowsForPatient
    dsimp only
    rw [hc]
    by_cases ha : p.admissions = []
    · simp [ha, h]
    · simp [ha, h]
  · intro h
    have hc : findSubsequentCycles p.admissions p.discharges = [] := by
      rw [h]; exact findSubsequentCycles_nil_left _
    unfold rowsForPatient
    dsimp only
    rw [hc]
    by_cases hd : p.discharges = []
    · simp [h, hd]
    · simp [h, hd]
  · intro h ha hd
    unfold rowsForPatient
    dsimp only
    rw [h]
    simp [ha, hd]

/-- Counterexample to claim C1: the spec's own example — admissions
`[2025-01-01, 2025-03-01]` and discharges `[2025-01-05]` — produces only
the single cycle row; the remaining admission `2025-03-01` is dropped
instead of being emitted as an admission-only row (the patient record
still holds both admissions). -/
theorem rowsForPatient_drops_leftover :
    createCyclesRows (createPatientGroupedJson
        [⟨"Admissions", [⟨"Nursing home", none, "Zed, Amy", "30001", "2025-01-01"⟩,
                         ⟨"Nursing home", none, "Zed, Amy", "30001", "2025-03-01"⟩], [], some 2⟩,
         ⟨"Discharges", [⟨"Funeral Home", none, "Zed, Amy", "30001", "2025-01-05"⟩], [], some 1⟩]) =
      [⟨"Amy", "Zed", "30001", "2025-01-01", "2025-01-05", none, none,
        "Nursing home", "Funeral Home"⟩] ∧
    (createPatientGroupedJson
        [⟨"Admissions", [⟨"Nursing home", none, "Zed, Amy", "30001", "2025-01-01"⟩,
                         ⟨"Nursing home", none, "Zed, Amy", "30001", "2025-03-01"⟩], [], some 2⟩,
         ⟨"Discharges", [⟨"Funeral Home", none, "Zed, Amy", "30001", "2025-01-05"⟩], [], some 1⟩]).map
      (fun kv => kv.2.admissions.length) = [2] :=
  ⟨rfl, rfl⟩

/-- Witness for the amended claim C1: a patient with one admission and no
discharges gets exactly the admission-only row. -/
theorem rowsForPatient_partial_rows_witness :
    rowsForPatient "P9" ⟨"P9", "Ann", "Beck", "Beck, Ann",
        [⟨"2025-02-02", "Nursing home", none⟩], [], 1, 0⟩ =
      [admRow "P9" "Ann" "Beck" ⟨"2025-02-02", "Nursing home", none⟩] :=
  (rowsForPatient_partial_rows "P9" _).2.1 rfl

theorem cyclesGo_monotone :
    ∀ (fuel : Nat) (as : List AdmEntry) (ds : List DisEntry)
      (c : AdmEntry × DisEntry), c ∈ cyclesGo fuel as ds →
      ∃ da dd, parseDate c.1.effective_date = some da ∧
        parseDate c.2.effective_date = some dd ∧ da ≤ dd := by
  intro fuel
  induction fuel with
  | zero => intro as ds c h; simp [cyclesGo] at h
  | succ n ih =>
    intro as ds c h
    match as, ds with
    | [], _ => simp [cyclesGo] at h
    | _ :: _, [] => simp [cyclesGo] at h
    | a :: as', d :: ds' =>
      simp only [cyclesGo] at h
      cases ha : parseDate a.effective_date with
      | none =>
        cases hd : parseDate d.effective_date with
        | none => rw [ha, hd] at h; exact ih _ _ c h
        | some dd => rw [ha, hd] at h; exact ih _ _ c h
      | some ad =>
        cases hd : parseDate d.effective_date with
        | none => rw [ha, hd] at h; exact ih _ _ c h
        | some dd =>
          rw [ha, hd] at h
          dsimp only at h
          split at h
          case isTrue hle =>
            rcases List.mem_cons.mp h with rfl | h
            · exact ⟨ad, dd, ha, hd, hle⟩
            · exact ih _ _ c h
          case isFalse hle => exact ih _ _ c h

theorem parseDate_empty : parseDate "" = none := rfl

/-- Claim C9: every pair emitted by the two-pointer sweep has both dates
parseable with `discharge_date ≥ admission_date`; equivalently, every
output row whose admission and discharge dates both parse pairs a
discharge on or after its admission (partial rows carry an empty,
unparseable date on the missing side). -/
theorem cycles_monotone :
    (∀ (adm : List AdmEntry) (dis : List DisEntry) (c : AdmEntry × DisEntry),
        c ∈ findSubsequentCycles adm dis →
        ∃ da dd, parseDate c.1.effective_date = some da ∧
          parseDate c.2.effective_date = some dd ∧ da ≤ dd) ∧
    (∀ (patients : List (String × PatientRec)) (r : Row) (da dd : Nat),
        r ∈ createCyclesRows patients →
        parseDate r.admission_date = some da →
        parseDate r.discharge_date = some dd → da ≤ dd) := by
  have hfind : ∀ (adm : List AdmEntry) (dis : List DisEntry) (c : AdmEntry × DisEntry),
      c ∈ findSubsequentCycles adm dis →
      ∃ da dd, parseDate c.1.effective_date = some da ∧
        parseDate c.2.effective_date = some dd ∧ da ≤ dd := by
    intro adm dis c h
    unfold findSubsequentCycles at h
    dsimp only at h
    split at h
    · simp at h
    · exact cyclesGo_monotone _ _ _ c h
  refine ⟨hfind, ?_⟩
  intro patients r da dd hr hda hdd
  unfold createCyclesRows at hr
  rw [mem_pySortBy, List.mem_flatten] at hr
  obtain ⟨rows, hrows, hrin⟩ := hr
  obtain ⟨kv, _, rfl⟩ := List.mem_map.mp hrows
  unfold rowsForPatient at hrin
  dsimp only at hrin
  split at hrin
  · obtain ⟨c, hc, rfl⟩ := List.mem_map.mp hrin
    obtain ⟨da0, dd0, h1, h2, h3⟩ := hfind _ _ c hc
    have e1 : da = da0 := by
      have := hda.symm.trans h1
      exact Option.some.inj this
    have e2 : dd = dd0 := by
      have := hdd.symm.trans h2
      exact Option.some.inj this
    rw [e1, e2]; exact h3
  · split at hrin
    · obtain ⟨a, _, rfl⟩ := List.mem_map.mp hrin
      exact absurd hdd (by rw [show (admRow kv.1 kv.2.first_name kv.2.last_name a).discharge_date = "" from rfl, parseDate_empty]; simp)
    · split at hrin
      · obtain ⟨d, _, rfl⟩ := List.mem_map.mp hrin
        exact absurd hda (by rw [show (disRow kv.1 kv.2.first_name kv.2.last_name d).admission_date = "" from rfl, parseDate_empty]; simp)
      · simp at hrin

/-- Witness for claim C9 at a concrete document: the emitted cycle row's
dates parse and are ordered. -/
theorem cycles_monotone_witness :
    (⟨"Amy", "Zed", "30001", "2025-01-01", "2025-01-05", none, none,
        "Nursing home", "Funeral Home"⟩ : Row) ∈
      createCyclesRows (createPatientGroupedJson
        [⟨"Admissions", [⟨"Nursing home", none, "Zed, Amy", "30001", "2025-01-01"⟩], [], some 1⟩,
         ⟨"Discharges", [⟨"Funeral Home", none, "Zed, Amy", "30001", "2025-01-05"⟩], [], some 1⟩]) ∧
    (20250101 : Nat) ≤ 20250105 :=
  ⟨by decide,
   cycles_monotone.2
     (createPatientGroupedJson
       [⟨"Admissions", [⟨"Nursing home", none, "Zed, Amy", "30001", "2025-01-01"⟩], [], some 1⟩,
        ⟨"Discharges", [⟨"Funeral Home", none, "Zed, Amy", "30001", "2025-01-05"⟩], [], some 1⟩])
     ⟨"Amy", "Zed", "30001", "2025-01-01", "2025-01-05", none, none,
       "Nursing home", "Funeral Home"⟩
     20250101 20250105 (by decide) (by decide) (by decide)⟩

theorem leStrS_trans (a b c : String) :
    leStrS a b = true → leStrS b c = true → leStrS a c = true :=
  leStrL_trans a.data b.data c.data

theorem leStrS_total (a b : String) : leStrS a b = true ∨ leStrS b a = true :=
  leStrL_total a.data b.data

/-- Counterexample to claim C5: the grouper sorts by the raw
`effective_date` string, so the unparseable date `"2025-99-99"` sorts
before the parseable `"2026-01-05"` rather than last. -/
theorem grouping_sort_unparseable_not_last :
    parseDate "2025-99-99" = none ∧
    (createPatientGroupedJson
        [⟨"Admissions", [⟨"Nursing home", none, "Yu, Bo", "50001", "2026-01-05"⟩,
                         ⟨"Nursing home", none, "Yu, Bo", "50001", "2025-99-99"⟩], [], some 2⟩]).map
      (fun kv => kv.2.admissions.map AdmEntry.effective_date) =
      [["2025-99-99", "2026-01-05"]] :=
  ⟨rfl, rfl⟩

/-- Claim C5 (amended): after grouping, every patient's admission and
discharge lists are sorted ascending by the raw `effective_date` string
(lexicographic code-point order, via Python's stable sort) and are
permutations of the entries collected for that patient; entries with
unparseable dates get no special placement — they sit wherever their
string sorts, not necessarily last. -/
theorem grouping_sorted_by_date_string (sections : List SectionR)
    (kv : String × PatientRec) (hm : kv ∈ createPatientGroupedJson sections) :
    kv.2.admissions.Pairwise
      (fun a b => leStrS a.effective_date b.effective_date = true) ∧
    kv.2.discharges.Pairwise
      (fun a b => leStrS a.effective_date b.effective_date = true) ∧
    ∃ kv0 ∈ createPatientsFromSections sections, kv.1 = kv0.1 ∧
      kv.2.admissions.Perm kv0.2.admissions ∧
      kv.2.discharges.Perm kv0.2.discharges := by
  unfold createPatientGroupedJson at hm
  dsimp only at hm
  rw [mem_pySortBy] at hm
  obtain ⟨kv0, hkv0, rfl⟩ := List.mem_map.mp hm
  refine ⟨?_, ?_, kv0, hkv0, rfl, ?_, ?_⟩
  · exact pySortBy_pairwise
      (fun a b c => leStrS_trans a.effective_date b.effective_date c.effective_date)
      (fun a b => leStrS_total a.effective_date b.effective_date)
      kv0.2.admissions
  · exact pySortBy_pairwise
      (fun a b c => leStrS_trans a.effective_date b.effective_date c.effective_date)
      (fun a b => leStrS_total a.effective_date b.effective_date)
      kv0.2.discharges
  · exact pySortBy_perm _ kv0.2.admissions
  · exact pySortBy_perm _ kv0.2.discharges

/-- Witness for the amended claim C5 at a concrete document. -/
theorem grouping_sorted_by_date_string_witness :
    (("50001",
      (⟨"50001", "Bo", "Yu", "Yu, Bo",
        [⟨"2025-99-99", "Nursing home", none⟩, ⟨"2026-01-05", "Nursing home", none⟩],
        [], 2, 0⟩ : PatientRec)) ∈
      createPatientGroupedJson
        [⟨"Admissions", [⟨"Nursing home", none, "Yu, Bo", "50001", "2026-01-05"⟩,
                         ⟨"Nursing home", none, "Yu, Bo", "50001", "2025-99-99"⟩], [], some 2⟩]) ∧
    (⟨"50001", "Bo", "Yu", "Yu, Bo",
        [⟨"2025-99-99", "Nursing home", none⟩, ⟨"2026-01-05", "Nursing home", none⟩],
        [], 2, 0⟩ : PatientRec).admissions.Pairwise
      (fun a b => leStrS a.effective_date b.effective_date = true) :=
  ⟨by decide,
   (grouping_sorted_by_date_string
     [⟨"Admissions", [⟨"Nursing home", none, "Yu, Bo", "50001", "2026-01-05"⟩,
                      ⟨"Nursing home", none, "Yu, Bo", "50001", "2025-99-99"⟩], [], some 2⟩]
     ("50001",
      ⟨"50001", "Bo", "Yu", "Yu, Bo",
        [⟨"2025-99-99", "Nursing home", none⟩, ⟨"2026-01-05", "Nursing home", none⟩],
        [], 2, 0⟩)
     (by decide)).1⟩
